import Mathlib

/-!
Shallow embedding of the SV candidate discovery core of `SVFinder.cpp`
(manta): evidence collection (`addSVNodeRead` / `addSVNodeData`),
observation assignment (`assignPairObservationsToSVCandidates`), overlap
consolidation (`consolidateOverlap` with the `svCandDeleter` compaction),
the per-edge orchestrator (`findCandidateSV`) and the diagnostic
`checkResult`.  Collaborator types that are declared outside the analysed
translation unit (`GenomeInterval`, `SVCandidate`, `SVLocusScanner`,
`SVCandidateSetData`, ...) are modelled from the specification, as noted
on each definition.  C++ exceptions and assertion failures are modelled
with `Except String`.
-/

namespace MantaSV

/-- Modelled from the spec: a `GenomeInterval` is a chromosome id plus a
half-open position range, supporting an intersection test and range-merge
(union of ranges). -/
structure GenomeInterval where
  tid : Int
  beginPos : Int
  endPos : Int
deriving DecidableEq

instance : Inhabited GenomeInterval := ⟨⟨0, 0, 0⟩⟩

/-- Modelled from the spec: intersection of two genome intervals — same
chromosome and overlapping half-open ranges. -/
def GenomeInterval.isIntersect (a b : GenomeInterval) : Bool :=
  decide (a.tid = b.tid) && decide (b.beginPos < a.endPos) && decide (a.beginPos < b.endPos)

/-- Modelled from the spec: `merge_range` takes the union (min of begins,
max of ends) of the position ranges, keeping the receiver's chromosome. -/
def GenomeInterval.mergeRange (a b : GenomeInterval) : GenomeInterval :=
  { a with beginPos := min a.beginPos b.beginPos, endPos := max a.endPos b.endPos }

/-- Modelled from the spec: the evidence types of `SVEvidenceType`; the
pair-derived kinds are `pair` and `localPair`. -/
inductive SVEvidenceType where
  | pair
  | localPair
  | cigar
  | softclip
  | semialign
  | shadow
  | unknown
deriving DecidableEq

/-- Modelled from the spec: `SVEvidenceType::isPairType` holds for the
two pair-derived evidence kinds. -/
def SVEvidenceType.isPairType : SVEvidenceType → Bool
  | .pair => true
  | .localPair => true
  | _ => false

/-- Modelled from the spec: one breakend of a candidate — a genomic
interval that grows by range-union plus accumulated observation counts
(the two counts read back by `checkResult`). -/
structure SVBreakend where
  interval : GenomeInterval
  localPairCount : Nat
  pairCount : Nat
deriving DecidableEq

/-- Modelled from the spec: breakend merge — union of the intervals and
sums of the counts. -/
def SVBreakend.merge (a b : SVBreakend) : SVBreakend :=
  { interval := a.interval.mergeRange b.interval,
    localPairCount := a.localPairCount + b.localPairCount,
    pairCount := a.pairCount + b.pairCount }

/-- Modelled from the spec: a candidate variant — two breakends plus the
stable `candidateIndex` that must equal its list position. -/
structure SVCandidate where
  bp1 : SVBreakend
  bp2 : SVBreakend
  candidateIndex : Nat
deriving DecidableEq

instance : Inhabited SVCandidate := ⟨⟨⟨default, 0, 0⟩, ⟨default, 0, 0⟩, 0⟩⟩

/-- Modelled from the spec: two candidates intersect when both breakend
intervals pairwise intersect. -/
def SVCandidate.isIntersect (a b : SVCandidate) : Bool :=
  a.bp1.interval.isIntersect b.bp1.interval && a.bp2.interval.isIntersect b.bp2.interval

/-- Modelled from the spec: candidate merge — merge both breakends; the
receiver keeps its identity (its `candidateIndex`). -/
def SVCandidate.merge (a b : SVCandidate) : SVCandidate :=
  { bp1 := a.bp1.merge b.bp1, bp2 := a.bp2.merge b.bp2, candidateIndex := a.candidateIndex }

/-- Modelled from the spec: a typed, directional breakend observation
derived from one read pair: an evidence type, a candidate-shaped payload
(the two breakend intervals) and the spanning-vs-local flag
(`isSpanningSV` in the source). -/
structure SVObservation where
  evtype : SVEvidenceType
  isSpanning : Bool
  cand : SVCandidate
deriving DecidableEq

/-- `SVPairAssociation`: (candidate index, evidence type), stored on a
read pair. -/
structure SVPairAssociation where
  index : Nat
  evtype : SVEvidenceType
deriving DecidableEq

/-- Modelled from the spec: a read pair of up to two evidence reads
(each side may be absent) plus its pair-to-candidate links. -/
structure SVCandidateSetReadPair (R : Type) where
  read1 : Option R
  read2 : Option R
  svLink : List SVPairAssociation
deriving DecidableEq

/-- Modelled from the spec: one sample's evidence group — an ordered
collection of read pairs plus the incomplete flag set on capacity
overflow. -/
structure SVCandidateSetReadPairSampleGroup (R : Type) where
  pairs : List (SVCandidateSetReadPair R)
  isIncomplete : Bool
deriving DecidableEq

def emptyGroup {R : Type} : SVCandidateSetReadPairSampleGroup R := ⟨[], false⟩

/-- `size()` of a sample group counts its read pairs. -/
def SVCandidateSetReadPairSampleGroup.size {R : Type}
    (g : SVCandidateSetReadPairSampleGroup R) : Nat :=
  g.pairs.length

/-- `setIncomplete()`. -/
def setIncomplete {R : Type} (g : SVCandidateSetReadPairSampleGroup R) :
    SVCandidateSetReadPairSampleGroup R :=
  { g with isIncomplete := true }

/-- Modelled from the spec: `add(bamRead, isExpectRepeat)` records the
read into the group as a new one-sided read pair; the qname-collision
(`isExpectRepeat`) pairing refinement is outside the analysed unit, so
each added read starts a fresh pair here. -/
def groupAdd {R : Type} (g : SVCandidateSetReadPairSampleGroup R) (r : R)
    (_isExpectRepeat : Bool) : SVCandidateSetReadPairSampleGroup R :=
  { g with pairs := g.pairs ++ [⟨some r, none, []⟩] }

/-- Modelled from the spec: `SVCandidateSetData` — the per-edge evidence
set: one sample group per input sample, the currently active search
interval, and the skip mark used for degenerate (self-) edges. -/
structure SVCandidateSetData (R : Type) where
  groups : List (SVCandidateSetReadPairSampleGroup R)
  searchInterval : Option GenomeInterval
  isSkippedAll : Bool
deriving DecidableEq

/-- `clear()` of the evidence set: a fresh scratch object. -/
def clearData {R : Type} : SVCandidateSetData R := ⟨[], none, false⟩

/-- `getDataGroup(bamIndex)`: the sample group for one index (created
empty on demand in the source; reads past the end give an empty group). -/
def getDataGroup {R : Type} (d : SVCandidateSetData R) (i : Nat) :
    SVCandidateSetReadPairSampleGroup R :=
  d.groups.getD i emptyGroup

/-- Write back the sample group for one index, creating empty groups up
to that index as `getDataGroup` would. -/
def setDataGroup {R : Type} (d : SVCandidateSetData R) (i : Nat)
    (g : SVCandidateSetReadPairSampleGroup R) : SVCandidateSetData R :=
  { d with groups := (d.groups ++ List.replicate (i + 1 - d.groups.length) emptyGroup).set i g }

/-- Modelled from the spec: `setNewSearchInterval` makes the interval the
active one and reports whether it was already active (re-entrant scan of
the same region). -/
def setNewSearchInterval {R : Type} (d : SVCandidateSetData R) (si : GenomeInterval) :
    Bool × SVCandidateSetData R :=
  (decide (d.searchInterval = some si), { d with searchInterval := some si })

/-- Modelled from the spec: `setSkipped()` marks the evidence set's
groups as skipped for degenerate edges. -/
def setSkipped {R : Type} (d : SVCandidateSetData R) : SVCandidateSetData R :=
  { d with isSkippedAll := true }

/-! ### The move-map and the deleted-index set of `consolidateOverlap`

`movemap_t` is a `std::map<unsigned,unsigned>`; it is only ever inserted
into and looked up, which the association list below models.
`deletedSVIndex` is a `std::set<unsigned>`; it is only ever inserted into
with strictly increasing keys (the outer loop index), so appending keeps
the set's ascending iteration order. -/

/-- `std::map` insertion (`moveSVIndex[k] = v`): newest binding wins. -/
def mmInsert (m : List (Nat × Nat)) (k v : Nat) : List (Nat × Nat) :=
  (k, v) :: m

/-- `std::map` lookup. -/
def mmLookup : List (Nat × Nat) → Nat → Option Nat
  | [], _ => none
  | (k, v) :: m, a => if a = k then some v else mmLookup m a

/-- `std::set<unsigned>::count` as a membership test. -/
def natMem : List Nat → Nat → Bool
  | [], _ => false
  | d :: ds, x => if x = d then true else natMem ds x

/-- Number of entries `≤ i` (the meaning of the source's running
`innerIndexShift` values). -/
def countLE : List Nat → Nat → Nat
  | [], _ => 0
  | d :: ds, i => (if d ≤ i then 1 else 0) + countLE ds i

/-- State of the first (merge-detection) pass of `consolidateOverlap`. -/
structure P1State where
  svs : List SVCandidate
  moveMap : List (Nat × Nat)
  deleted : List Nat
  innerShift : List Nat
deriving DecidableEq

/-- The inner loop of `consolidateOverlap`: scan earlier, non-deleted
candidates in index order; on the first intersecting one, merge the outer
candidate into it, record the move to the inner candidate's
post-compaction index, mark the outer candidate deleted and stop. -/
def innerScan (outerIndex : Nat) : P1State → List Nat → P1State
  | st, [] => st
  | st, inner :: rest =>
    if natMem st.deleted inner then innerScan outerIndex st rest
    else if (st.svs.getD inner default).isIntersect (st.svs.getD outerIndex default) then
      { svs := st.svs.set inner ((st.svs.getD inner default).merge (st.svs.getD outerIndex default)),
        moveMap := mmInsert st.moveMap outerIndex (inner - st.innerShift.getD inner 0),
        deleted := st.deleted ++ [outerIndex],
        innerShift := st.innerShift }
    else innerScan outerIndex st rest

/-- One outer iteration of `consolidateOverlap`'s first pass: push the
running deleted-count for index `outerIndex - 1`, then run the inner
scan over indices `0, ..., outerIndex - 1`. -/
def outerStep (st : P1State) (outerIndex : Nat) : P1State :=
  let prev := if outerIndex ≤ 1 then 0 else st.innerShift.getD (outerIndex - 2) 0
  let st1 : P1State :=
    { st with innerShift :=
        st.innerShift ++ [prev + (if natMem st.deleted (outerIndex - 1) then 1 else 0)] }
  innerScan outerIndex st1 (List.range outerIndex)

def phase1Go : P1State → List Nat → P1State
  | st, [] => st
  | st, o :: os => phase1Go (outerStep st o) os

/-- The complete first pass of `consolidateOverlap`: outer index from 1
up to `svs.length - 1`. -/
def phase1 (svs : List SVCandidate) : P1State :=
  phase1Go ⟨svs, [], [], []⟩ (List.range' 1 (svs.length - 1))

/-- The state of the source's `svCandDeleter`. -/
structure DelState where
  svs : List SVCandidate
  moveMap : List (Nat × Nat)
  shift : Nat
  isLastIndex : Bool
  lastIndex : Nat
deriving DecidableEq

/-- One step of `svCandDeleter`'s shifting loop: move a surviving
candidate down by the current shift and record its move. -/
def shiftStep (s : DelState) (i : Nat) : DelState :=
  { s with svs := s.svs.set (i - s.shift) (s.svs.getD i default),
           moveMap := mmInsert s.moveMap i (i - s.shift) }

def shiftGo : DelState → List Nat → DelState
  | s, [] => s
  | s, i :: is => shiftGo (shiftStep s i) is

/-- `svCandDeleter::deleteIndex`: shift every entry strictly between the
previous deleted index and this one, then advance the deleter state. -/
def deleteIndex (s : DelState) (index : Nat) : DelState :=
  let s1 :=
    if s.isLastIndex then shiftGo s (List.range' (s.lastIndex + 1) (index - (s.lastIndex + 1)))
    else s
  { s1 with lastIndex := index, isLastIndex := true, shift := s1.shift + 1 }

def deleterGo : DelState → List Nat → DelState
  | s, [] => s
  | s, e :: es => deleterGo (deleteIndex s e) es

/-- The deleter run of `consolidateOverlap`: `deleteIndex` over every
deleted index (in ascending `std::set` order) and then over `svCount`. -/
def runDeleter (svs : List SVCandidate) (moveMap : List (Nat × Nat))
    (deleted : List Nat) (svCount : Nat) : DelState :=
  deleterGo ⟨svs, moveMap, 0, false, 0⟩ (deleted ++ [svCount])

/-- The index-fixing loop after compaction:
`svs[i].candidateIndex = i`. -/
def reindexFrom (k : Nat) : List SVCandidate → List SVCandidate
  | [] => []
  | c :: cs => { c with candidateIndex := k } :: reindexFrom (k + 1) cs

/-- The association rewrite of `consolidateOverlap`: an association whose
index is in the move-map is redirected; others are untouched. -/
def remapAssoc (mm : List (Nat × Nat)) (sva : SVPairAssociation) : SVPairAssociation :=
  match mmLookup mm sva.index with
  | some v => { sva with index := v }
  | none => sva

def remapPair {R : Type} (mm : List (Nat × Nat)) (p : SVCandidateSetReadPair R) :
    SVCandidateSetReadPair R :=
  { p with svLink := p.svLink.map (remapAssoc mm) }

def remapGroup {R : Type} (mm : List (Nat × Nat)) (g : SVCandidateSetReadPairSampleGroup R) :
    SVCandidateSetReadPairSampleGroup R :=
  { g with pairs := g.pairs.map (remapPair mm) }

/-- Rewrite every pair association across every sample's evidence
group. -/
def remapData {R : Type} (bamCount : Nat) (mm : List (Nat × Nat)) (d : SVCandidateSetData R) :
    SVCandidateSetData R :=
  { d with groups := (List.range bamCount).map fun i => remapGroup mm (getDataGroup d i) }

/-- `consolidateOverlap`: merge candidates that have grown to intersect,
compact the candidate list, restore the index invariant, and rewrite all
pair associations through the move-map. -/
def consolidateOverlap {R : Type} (bamCount : Nat) (svData : SVCandidateSetData R)
    (svs : List SVCandidate) : SVCandidateSetData R × List SVCandidate :=
  let p := phase1 svs
  let res :=
    if p.deleted.isEmpty then (p.svs, p.moveMap)
    else
      let d := runDeleter p.svs p.moveMap p.deleted svs.length
      (reindexFrom 0 (d.svs.take (p.svs.length - p.deleted.length)), d.moveMap)
  let svData2 := if res.2.isEmpty then svData else remapData bamCount res.2 svData
  (svData2, res.1)

/-! ### Observation assignment (`assignPairObservationsToSVCandidates`) -/

/-- The translation-unit constant `isExcludeUnpaired` (true). -/
def isExcludeUnpaired : Bool := true

/-- The candidate scan of `assignPairObservationsToSVCandidates`: walk
the candidates with a running index; on the first whose breakends
intersect the observation, link the pair (when spanning), merge the
observation into it and stop. Returns whether a match was found. -/
def scanMerge {R : Type} (readCand : SVObservation) (isSpanning : Bool)
    (pair : SVCandidateSetReadPair R) (svIndex : Nat) :
    List SVCandidate → SVCandidateSetReadPair R × List SVCandidate × Bool
  | [] => (pair, [], false)
  | sv :: rest =>
    if sv.isIntersect readCand.cand then
      ({ pair with svLink := pair.svLink ++ (if isSpanning then [⟨svIndex, readCand.evtype⟩] else []) },
       sv.merge readCand.cand :: rest, true)
    else
      let r := scanMerge readCand isSpanning pair (svIndex + 1) rest
      (r.1, sv :: r.2.1, r.2.2)

/-- Assignment of one observation: skip it under pair-type exclusion;
otherwise merge into the first intersecting candidate or append a new
candidate seeded from the observation, linking the pair when the
observation is spanning. -/
def assignObs {R : Type} (isExcludePairType : Bool) (pair : SVCandidateSetReadPair R)
    (svs : List SVCandidate) (readCand : SVObservation) :
    SVCandidateSetReadPair R × List SVCandidate :=
  if isExcludePairType && readCand.evtype.isPairType then (pair, svs)
  else
    let isSpanning := readCand.isSpanning
    let r := scanMerge readCand isSpanning pair 0 svs
    if r.2.2 then (r.1, r.2.1)
    else
      let newSVIndex := svs.length
      ({ pair with svLink := pair.svLink ++ (if isSpanning then [⟨newSVIndex, readCand.evtype⟩] else []) },
       svs ++ [{ readCand.cand with candidateIndex := newSVIndex }])

def assignGo {R : Type} (isExcludePairType : Bool) :
    List SVObservation → SVCandidateSetReadPair R → List SVCandidate →
    SVCandidateSetReadPair R × List SVCandidate
  | [], pair, svs => (pair, svs)
  | c :: cs, pair, svs =>
    let r := assignObs isExcludePairType pair svs c
    assignGo isExcludePairType cs r.1 r.2

/-- `assignPairObservationsToSVCandidates`: fold every derived
observation of one read pair into the shared candidate list. -/
def assignPairObservationsToSVCandidates {R : Type} (isExcludePairType : Bool)
    (readCandidates : List SVObservation) (pair : SVCandidateSetReadPair R)
    (svs : List SVCandidate) : SVCandidateSetReadPair R × List SVCandidate :=
  assignGo isExcludePairType readCandidates pair svs

/-! ### The read-classification collaborator and the evidence collector -/

/-- One side of a breakend locus derived from a read, with its out-count
flag. -/
structure ReadLocusNode where
  interval : GenomeInterval
  isOutCountB : Bool
deriving DecidableEq

/-- A derived locus has one or two sides (`assert(locusSize>=1 &&
locusSize<=2)` in the source). -/
inductive ReadLocus where
  | one : ReadLocusNode → ReadLocus
  | two : ReadLocusNode → ReadLocusNode → ReadLocus
deriving DecidableEq

/-- A graph node: breakend interval plus evidence-extent interval. -/
structure SVLocusNode where
  interval : GenomeInterval
  evidenceRange : GenomeInterval
deriving DecidableEq

instance : Inhabited SVLocusNode := ⟨⟨default, default⟩⟩

/-- Modelled from the spec: the read-classification collaborator
(`SVLocusScanner`): filter/anomalous/large-fragment/local-assembly
predicates plus the breakend-derivation functions. -/
structure SVLocusScanner (R : Type) where
  isReadFiltered : R → Bool
  isProperPair : R → Nat → Bool
  isLargeFragment : R → Nat → Bool
  isLocalAssemblyEvidence : R → Bool
  getSVLoci : R → Nat → List ReadLocus
  getBreakendPair : R → Option R → Nat → List SVObservation

/-- Outcome of examining one derived locus in `addSVNodeRead`. -/
inductive LocusOutcome where
  | fault
  | matched
  | skip
deriving DecidableEq

/-- One iteration of `addSVNodeRead`'s locus loop: pick the out-count
side as local (swapping when side 0 is not out-count); a two-sided locus
with no out-count side is a data-integrity fault; otherwise require the
remote side (two-sided only) to intersect the remote node and the local
side to intersect the local node. -/
def locusStep (localNode remoteNode : SVLocusNode) : ReadLocus → LocusOutcome
  | .one nd =>
    if nd.interval.isIntersect localNode.interval then .matched else .skip
  | .two n0 n1 =>
    let lr := if !n0.isOutCountB then (n1, n0) else (n0, n1)
    if !lr.1.isOutCountB then .fault
    else if !(lr.2.interval.isIntersect remoteNode.interval) then .skip
    else if lr.1.interval.isIntersect localNode.interval then .matched
    else .skip

/-- `addSVNodeRead`'s locus loop: examine derived loci in order; the
first match records the read and stops; a fault aborts with the
data-integrity exception. -/
def scanLoci (localNode remoteNode : SVLocusNode) : List ReadLocus → Except String Bool
  | [] => .ok false
  | l :: ls =>
    match locusStep localNode remoteNode l with
    | .fault => .error "Unexpected svlocus counts from bam record"
    | .matched => .ok true
    | .skip => scanLoci localNode remoteNode ls

/-- The per-group capacity cap of `addSVNodeRead` (`maxDataSize`). -/
def maxDataSize : Nat := 4000

/-- `addSVNodeRead`: filter the read, require large-anomalous or
local-assembly evidence, silently truncate (marking the group
incomplete) once the group holds `maxDataSize` pairs, then scan the
derived loci and record the read on the first local/remote match. -/
def addSVNodeRead {R : Type} (scanner : SVLocusScanner R)
    (localNode remoteNode : SVLocusNode) (bamRead : R) (bamIndex : Nat)
    (isExpectRepeat : Bool) (svDataGroup : SVCandidateSetReadPairSampleGroup R) :
    Except String (SVCandidateSetReadPairSampleGroup R) :=
  if scanner.isReadFiltered bamRead then .ok svDataGroup
  else
    let isAnomalous := !scanner.isProperPair bamRead bamIndex
    let isLargeFragment := scanner.isLargeFragment bamRead bamIndex
    let isLargeAnomalous := isAnomalous && isLargeFragment
    let isLocalAssemblyEvidence :=
      if !isLargeAnomalous then scanner.isLocalAssemblyEvidence bamRead else false
    if !(isLargeAnomalous || isLocalAssemblyEvidence) then .ok svDataGroup
    else if maxDataSize ≤ svDataGroup.size then .ok (setIncomplete svDataGroup)
    else
      match scanLoci localNode remoteNode (scanner.getSVLoci bamRead bamIndex) with
      | .error e => .error e
      | .ok true => .ok (groupAdd svDataGroup bamRead isExpectRepeat)
      | .ok false => .ok svDataGroup

/-- The record loop of `addSVNodeData` for one sample's stream: feed
every record of the repositioned stream through `addSVNodeRead`. -/
def feedReads {R : Type} (scanner : SVLocusScanner R) (localNode remoteNode : SVLocusNode)
    (bamIndex : Nat) (isExpectRepeat : Bool)
    (g : SVCandidateSetReadPairSampleGroup R) :
    List R → Except String (SVCandidateSetReadPairSampleGroup R)
  | [] => .ok g
  | r :: rs =>
    match addSVNodeRead scanner localNode remoteNode r bamIndex isExpectRepeat g with
    | .error e => .error e
    | .ok g' => feedReads scanner localNode remoteNode bamIndex isExpectRepeat g' rs

def nodeDataGo {R : Type} (scanner : SVLocusScanner R) (localNode remoteNode : SVLocusNode)
    (isExpectRepeat : Bool) (si : GenomeInterval) :
    List (GenomeInterval → List R) → Nat → SVCandidateSetData R →
    Except String (SVCandidateSetData R)
  | [], _, d => .ok d
  | stream :: rest, bamIndex, d =>
    match feedReads scanner localNode remoteNode bamIndex isExpectRepeat
        (getDataGroup d bamIndex) (stream si) with
    | .error e => .error e
    | .ok g => nodeDataGo scanner localNode remoteNode isExpectRepeat si rest (bamIndex + 1)
        (setDataGroup d bamIndex g)

/-- `addSVNodeData`: build the search interval (breakend interval merged
with the evidence extent), derive the relaxed expect-repeat flag, then
scan every sample's alignment stream over that interval. -/
def addSVNodeData {R : Type} (scanner : SVLocusScanner R)
    (streams : List (GenomeInterval → List R)) (nodes : List SVLocusNode)
    (localNodeIndex remoteNodeIndex : Nat) (svData : SVCandidateSetData R) :
    Except String (SVCandidateSetData R) :=
  let localNode := nodes.getD localNodeIndex default
  let remoteNode := nodes.getD remoteNodeIndex default
  let searchInterval := localNode.interval.mergeRange localNode.evidenceRange
  let pr := setNewSearchInterval svData searchInterval
  let isExpectRepeat := pr.1 || decide (localNode.interval.tid = remoteNode.interval.tid)
  nodeDataGo scanner localNode remoteNode isExpectRepeat searchInterval streams 0 pr.2

/-! ### `getCandidatesFromData` and the per-edge orchestrator -/

/-- The per-pair body of `getCandidatesFromData`: clear and rebuild the
pair's links, pick the local side (swapping when read1 is absent,
asserting at least one side is set), derive the observations, determine
pair-type exclusion (exclude-unpaired policy with an absent remote
side), and assign. -/
def processPair {R : Type} (scanner : SVLocusScanner R) (bamIndex : Nat)
    (pair : SVCandidateSetReadPair R) (svs : List SVCandidate) :
    Except String (SVCandidateSetReadPair R × List SVCandidate) :=
  let pair1 : SVCandidateSetReadPair R := { pair with svLink := [] }
  let localRead := if pair1.read1.isSome then pair1.read1 else pair1.read2
  let remoteRead := if pair1.read1.isSome then pair1.read2 else pair1.read1
  match localRead with
  | none => .error "assertion failed: localReadPtr is set"
  | some lr =>
    let readCandidates := scanner.getBreakendPair lr remoteRead bamIndex
    let isExcludePairType := isExcludeUnpaired && !remoteRead.isSome
    .ok (assignPairObservationsToSVCandidates isExcludePairType readCandidates pair1 svs)

def processGroupPairs {R : Type} (scanner : SVLocusScanner R) (bamIndex : Nat) :
    List (SVCandidateSetReadPair R) → List SVCandidate →
    Except String (List (SVCandidateSetReadPair R) × List SVCandidate)
  | [], svs => .ok ([], svs)
  | p :: ps, svs =>
    match processPair scanner bamIndex p svs with
    | .error e => .error e
    | .ok r =>
      match processGroupPairs scanner bamIndex ps r.2 with
      | .error e => .error e
      | .ok r2 => .ok (r.1 :: r2.1, r2.2)

def gcGo {R : Type} (scanner : SVLocusScanner R) :
    SVCandidateSetData R → List SVCandidate → List Nat →
    Except String (SVCandidateSetData R × List SVCandidate)
  | d, svs, [] => .ok (d, svs)
  | d, svs, i :: is =>
    match processGroupPairs scanner i (getDataGroup d i).pairs svs with
    | .error e => .error e
    | .ok r => gcGo scanner (setDataGroup d i { getDataGroup d i with pairs := r.1 }) r.2 is

/-- `getCandidatesFromData`: assign every pair's observations sample by
sample, then consolidate overlapping candidates. -/
def getCandidatesFromData {R : Type} (scanner : SVLocusScanner R) (bamCount : Nat)
    (svData : SVCandidateSetData R) (svs : List SVCandidate) :
    Except String (SVCandidateSetData R × List SVCandidate) :=
  match gcGo scanner svData svs (List.range bamCount) with
  | .error e => .error e
  | .ok r => .ok (consolidateOverlap bamCount r.1 r.2)

/-- A graph locus: its nodes and the directed edge counts. -/
structure GraphLocus where
  nodes : List SVLocusNode
  edgeCount : Nat → Nat → Nat

/-- The locus set: loci plus the configured minimum merge edge count. -/
structure SVLocusSet where
  loci : List GraphLocus
  minMergeEdgeCount : Nat

/-- An edge of the interval graph. -/
structure EdgeInfo where
  locusIndex : Nat
  nodeIndex1 : Nat
  nodeIndex2 : Nat
deriving DecidableEq

/-- Invocation log of the orchestrator: one `scanEv` per
`addSVNodeData` call, `assignEv`/`consolidateEv` for
`getCandidatesFromData`'s two stages. -/
inductive TraceEv where
  | scanEv : Nat → Nat → TraceEv
  | assignEv
  | consolidateEv
deriving DecidableEq

structure FindResult (R : Type) where
  svData : SVCandidateSetData R
  svs : List SVCandidate
  trace : List TraceEv
deriving DecidableEq

/-- `findCandidateSV`: clear the scratch state, gate on the two directed
edge counts, collect evidence for the first direction, then either
collect the reverse direction (ordinary edge) or mark the evidence set
skipped (self-edge), and finally assign and consolidate. -/
def findCandidateSV {R : Type} (scanner : SVLocusScanner R)
    (streams : List (GenomeInterval → List R)) (set : SVLocusSet) (edge : EdgeInfo) :
    Except String (FindResult R) :=
  let svData : SVCandidateSetData R := clearData
  let svs : List SVCandidate := []
  let minEdgeCount := set.minMergeEdgeCount
  let locus := set.loci.getD edge.locusIndex ⟨[], fun _ _ => 0⟩
  if locus.edgeCount edge.nodeIndex1 edge.nodeIndex2 < minEdgeCount ∨
      locus.edgeCount edge.nodeIndex2 edge.nodeIndex1 < minEdgeCount then
    .ok ⟨svData, svs, []⟩
  else
    match addSVNodeData scanner streams locus.nodes edge.nodeIndex1 edge.nodeIndex2 svData with
    | .error e => .error e
    | .ok d1 =>
      let step2 : Except String (SVCandidateSetData R × List TraceEv) :=
        if edge.nodeIndex1 ≠ edge.nodeIndex2 then
          match addSVNodeData scanner streams locus.nodes edge.nodeIndex2 edge.nodeIndex1 d1 with
          | .error e => .error e
          | .ok d2 => .ok (d2, [.scanEv edge.nodeIndex1 edge.nodeIndex2,
                                .scanEv edge.nodeIndex2 edge.nodeIndex1])
        else
          .ok (setSkipped d1, [.scanEv edge.nodeIndex1 edge.nodeIndex2])
      match step2 with
      | .error e => .error e
      | .ok (d2, tr) =>
        match getCandidatesFromData scanner streams.length d2 svs with
        | .error e => .error e
        | .ok r => .ok ⟨r.1, r.2, tr ++ [.assignEv, .consolidateEv]⟩

/-! ### The result validator (`checkResult`) -/

/-- The per-association tally step of `checkResult`: an association
index at or past the candidate count is a fatal fault; pair-type
associations bump the per-candidate read tally for each set side and the
pair tally by two when both sides are set. -/
def tallyLink {R : Type} (svCount : Nat) (pair : SVCandidateSetReadPair R)
    (counts : (Nat → Nat) × (Nat → Nat)) (sva : SVPairAssociation) :
    Except String ((Nat → Nat) × (Nat → Nat)) :=
  if svCount ≤ sva.index then .error "Searching for SVIndex out of range"
  else if sva.evtype.isPairType then
    let r := (if pair.read1.isSome then 1 else 0) + (if pair.read2.isSome then 1 else 0)
    let q := if pair.read1.isSome && pair.read2.isSome then 2 else 0
    .ok (fun i => if i = sva.index then counts.1 i + r else counts.1 i,
         fun i => if i = sva.index then counts.2 i + q else counts.2 i)
  else .ok counts

def tallyLinks {R : Type} (svCount : Nat) (pair : SVCandidateSetReadPair R) :
    ((Nat → Nat) × (Nat → Nat)) → List SVPairAssociation →
    Except String ((Nat → Nat) × (Nat → Nat))
  | counts, [] => .ok counts
  | counts, sva :: rest =>
    match tallyLink svCount pair counts sva with
    | .error e => .error e
    | .ok c => tallyLinks svCount pair c rest

def tallyPairs {R : Type} (svCount : Nat) :
    ((Nat → Nat) × (Nat → Nat)) → List (SVCandidateSetReadPair R) →
    Except String ((Nat → Nat) × (Nat → Nat))
  | counts, [] => .ok counts
  | counts, p :: ps =>
    match tallyLinks svCount p counts p.svLink with
    | .error e => .error e
    | .ok c => tallyPairs svCount c ps

def tallyGroups {R : Type} (svCount : Nat) (svData : SVCandidateSetData R) :
    ((Nat → Nat) × (Nat → Nat)) → List Nat →
    Except String ((Nat → Nat) × (Nat → Nat))
  | counts, [] => .ok counts
  | counts, i :: is =>
    match tallyPairs svCount counts (getDataGroup svData i).pairs with
    | .error e => .error e
    | .ok c => tallyGroups svCount svData c is

/-- The per-candidate comparison loop of `checkResult` (the equal
breakend pair-count assertion and the count-mismatch fault, under the
exclude-unpaired policy). -/
def checkCounts (svs : List SVCandidate) (counts : (Nat → Nat) × (Nat → Nat)) :
    List Nat → Except String Unit
  | [] => .ok ()
  | i :: rest =>
    let sv := svs.getD i default
    if sv.bp1.pairCount ≠ sv.bp2.pairCount then
      .error "assertion failed: equal breakend pair counts"
    else
      let svObsReadCount := sv.bp1.localPairCount + sv.bp2.localPairCount
      let svObsPairCount := sv.bp1.pairCount + sv.bp2.pairCount
      let isCountException :=
        (if isExcludeUnpaired then decide (counts.1 i < svObsReadCount)
         else decide (svObsReadCount ≠ counts.1 i)) ||
        decide (svObsPairCount ≠ counts.2 i)
      if isCountException then .error "Unexpected difference in sv and data read counts"
      else checkCounts svs counts rest

/-- `checkResult`: with no candidates, succeed immediately; otherwise
tally per-candidate read/pair counts from the evidence groups (faulting
on an out-of-range association index) and compare them against the
counts stored on each candidate's breakends. -/
def checkResult {R : Type} (bamCount : Nat) (svData : SVCandidateSetData R)
    (svs : List SVCandidate) : Except String Unit :=
  if svs.length = 0 then .ok ()
  else
    match tallyGroups svs.length svData (fun _ => 0, fun _ => 0) (List.range bamCount) with
    | .error e => .error e
    | .ok counts => checkCounts svs counts (List.range svs.length)

/-! ### Derived predicates used by the verified properties -/

/-- Index stability: every candidate's stored `candidateIndex` equals
its position. -/
def indexStableB (svs : List SVCandidate) : Bool :=
  (List.range svs.length).all fun i => (svs.getD i default).candidateIndex == i

/-- Association validity: every pair association of every sample's group
references an index below `n`. -/
def dataAssocValidB {R : Type} (bamCount : Nat) (d : SVCandidateSetData R) (n : Nat) : Bool :=
  (List.range bamCount).all fun i =>
    (getDataGroup d i).pairs.all fun p => p.svLink.all fun sva => decide (sva.index < n)

/-- A read that `addSVNodeRead` will record: it passes the evidence
filters and its derived loci produce a match. -/
def isQualifyingAdd {R : Type} (scanner : SVLocusScanner R)
    (localNode remoteNode : SVLocusNode) (bamIndex : Nat) (r : R) : Bool :=
  !scanner.isReadFiltered r &&
    ((!scanner.isProperPair r bamIndex && scanner.isLargeFragment r bamIndex) ||
      (!(!scanner.isProperPair r bamIndex && scanner.isLargeFragment r bamIndex) &&
        scanner.isLocalAssemblyEvidence r)) &&
    (match scanLoci localNode remoteNode (scanner.getSVLoci r bamIndex) with
     | .ok true => true
     | _ => false)

/-! ### Helper lemmas -/

theorem isSkippedAll_setDataGroup {R : Type} (d : SVCandidateSetData R) (i : Nat)
    (g : SVCandidateSetReadPairSampleGroup R) :
    (setDataGroup d i g).isSkippedAll = d.isSkippedAll := rfl

theorem isSkippedAll_remapData {R : Type} (bamCount : Nat) (mm : List (Nat × Nat))
    (d : SVCandidateSetData R) : (remapData bamCount mm d).isSkippedAll = d.isSkippedAll := rfl

theorem isSkippedAll_consolidateOverlap {R : Type} (bamCount : Nat) (d : SVCandidateSetData R)
    (svs : List SVCandidate) :
    (consolidateOverlap bamCount d svs).1.isSkippedAll = d.isSkippedAll := by
  unfold consolidateOverlap
  dsimp only
  split <;> (split <;> rfl)

theorem gcGo_isSkippedAll {R : Type} (scanner : SVLocusScanner R) :
    ∀ (l : List Nat) (d : SVCandidateSetData R) (svs : List SVCandidate)
      (r : SVCandidateSetData R × List SVCandidate),
      gcGo scanner d svs l = .ok r → r.1.isSkippedAll = d.isSkippedAll
  | [], d, svs, r, h => by
    simp only [gcGo] at h
    cases h
    rfl
  | i :: is, d, svs, r, h => by
    simp only [gcGo] at h
    split at h
    · exact absurd h (by simp)
    · have := gcGo_isSkippedAll scanner is _ _ r h
      rw [this, isSkippedAll_setDataGroup]

theorem getCandidatesFromData_isSkippedAll {R : Type} (scanner : SVLocusScanner R)
    (bamCount : Nat) (d : SVCandidateSetData R) (svs : List SVCandidate)
    (r : SVCandidateSetData R × List SVCandidate)
    (h : getCandidatesFromData scanner bamCount d svs = .ok r) :
    r.1.isSkippedAll = d.isSkippedAll := by
  unfold getCandidatesFromData at h
  split at h
  · exact absurd h (by simp)
  · rename_i r0 hr0
    cases h
    rw [isSkippedAll_consolidateOverlap]
    exact gcGo_isSkippedAll scanner _ _ _ _ hr0

/-! ### C3 fixture: the three-candidate consolidation scenario -/

def c3Bp (b e : Int) : SVBreakend := ⟨⟨0, b, e⟩, 0, 0⟩

def c3Cand (i : Nat) (b e : Int) : SVCandidate := ⟨c3Bp b e, c3Bp 100 150, i⟩

def c3Svs : List SVCandidate := [c3Cand 0 100 150, c3Cand 1 140 200, c3Cand 2 500 600]

def c3PairA : SVCandidateSetReadPair Nat := ⟨some 1, some 2, [⟨0, .pair⟩, ⟨1, .pair⟩]⟩

def c3PairB : SVCandidateSetReadPair Nat := ⟨some 3, none, [⟨2, .localPair⟩, ⟨1, .localPair⟩]⟩

def c3Data : SVCandidateSetData Nat := ⟨[⟨[c3PairA], false⟩, ⟨[c3PairB], false⟩], none, false⟩

/-! ### C5/C6 fixture: a trivial one-node graph with a self-edge -/

def c5Scanner : SVLocusScanner Nat :=
  ⟨fun _ => false, fun _ _ => true, fun _ _ => false, fun _ => false,
   fun _ _ => [], fun _ _ _ => []⟩

def c5Set : SVLocusSet := ⟨[⟨[⟨⟨0, 0, 10⟩, ⟨0, 0, 10⟩⟩], fun _ _ => 5⟩], 1⟩

def c5Edge : EdgeInfo := ⟨0, 0, 0⟩

def c5Streams : List (GenomeInterval → List Nat) := [fun _ => []]

def c5Res : FindResult Nat :=
  ⟨⟨[emptyGroup], some ⟨0, 0, 10⟩, true⟩, [],
   [.scanEv 0 0, .assignEv, .consolidateEv]⟩

def c6Set : SVLocusSet := ⟨[⟨[⟨⟨0, 0, 10⟩, ⟨0, 0, 10⟩⟩], fun _ _ => 0⟩], 1⟩

/-! ### Claim theorems (first batch) -/

/-- C3: for the three candidates with breakend intervals
[100-150]/[100-150], [140-200]/[100-150], [500-600]/[100-150],
`consolidateOverlap` leaves exactly two candidates, candidate 0's first
breakend interval is the union [100-200], and the stored pair
associations are rewritten 0 to 0, 1 to 0 and 2 to 1. -/
theorem consolidateOverlap_threeCandidates :
    (consolidateOverlap 2 c3Data c3Svs).2 =
      [⟨c3Bp 100 200, c3Bp 100 150, 0⟩, ⟨c3Bp 500 600, c3Bp 100 150, 1⟩] ∧
    (getDataGroup (consolidateOverlap 2 c3Data c3Svs).1 0).pairs =
      [⟨some 1, some 2, [⟨0, .pair⟩, ⟨0, .pair⟩]⟩] ∧
    (getDataGroup (consolidateOverlap 2 c3Data c3Svs).1 1).pairs =
      [⟨some 3, none, [⟨1, .localPair⟩, ⟨0, .localPair⟩]⟩] := by
  decide

/-- C10: with an empty candidate list, `checkResult` succeeds without
raising any fault, whatever associations (in range or not) the evidence
set still carries. -/
theorem checkResult_emptyCandidates {R : Type} (bamCount : Nat)
    (svData : SVCandidateSetData R) : checkResult bamCount svData [] = .ok () := rfl

/-- C6: an edge whose directed count in either direction is below the
configured minimum yields an empty candidate list, a cleared evidence
set, and no evidence collection, assignment or consolidation. -/
theorem findCandidateSV_gated {R : Type} (scanner : SVLocusScanner R)
    (streams : List (GenomeInterval → List R)) (set : SVLocusSet) (edge : EdgeInfo)
    (hgate : (set.loci.getD edge.locusIndex ⟨[], fun _ _ => 0⟩).edgeCount
        edge.nodeIndex1 edge.nodeIndex2 < set.minMergeEdgeCount ∨
      (set.loci.getD edge.locusIndex ⟨[], fun _ _ => 0⟩).edgeCount
        edge.nodeIndex2 edge.nodeIndex1 < set.minMergeEdgeCount) :
    findCandidateSV scanner streams set edge = .ok ⟨clearData, [], []⟩ := by
  unfold findCandidateSV
  rw [if_pos hgate]

theorem findCandidateSV_gated_app :
    findCandidateSV c5Scanner c5Streams c6Set c5Edge = .ok ⟨clearData, [], []⟩ :=
  findCandidateSV_gated c5Scanner c5Streams c6Set c5Edge (by decide)

/-- C5 counterexample: a self-edge that passes the minimum-edge-count
gate does invoke the Evidence Collector (`addSVNodeData` runs for the
local-to-local direction, witnessed by the scan event in the trace),
contrary to the claim that the scan logic is not invoked. -/
theorem findCandidateSV_selfEdge_scans :
    findCandidateSV c5Scanner c5Streams c5Set c5Edge = .ok c5Res ∧
    TraceEv.scanEv 0 0 ∈ c5Res.trace := by
  constructor
  · rfl
  · decide

/-- C5 (amended): a self-edge that passes the minimum-edge-count gate
has its evidence set marked skipped, but the Evidence Collector is
invoked exactly once, for the local-to-local direction (no reverse
invocation). -/
theorem findCandidateSV_selfEdge_skipped {R : Type} (scanner : SVLocusScanner R)
    (streams : List (GenomeInterval → List R)) (set : SVLocusSet) (edge : EdgeInfo)
    (res : FindResult R)
    (hself : edge.nodeIndex1 = edge.nodeIndex2)
    (hgate : ¬((set.loci.getD edge.locusIndex ⟨[], fun _ _ => 0⟩).edgeCount
        edge.nodeIndex1 edge.nodeIndex2 < set.minMergeEdgeCount ∨
      (set.loci.getD edge.locusIndex ⟨[], fun _ _ => 0⟩).edgeCount
        edge.nodeIndex2 edge.nodeIndex1 < set.minMergeEdgeCount))
    (hok : findCandidateSV scanner streams set edge = .ok res) :
    res.svData.isSkippedAll = true ∧
    res.trace = [.scanEv edge.nodeIndex1 edge.nodeIndex1, .assignEv, .consolidateEv] := by
  unfold findCandidateSV at hok
  rw [if_neg hgate] at hok
  split at hok
  · exact absurd hok (by simp)
  · rename_i d1 hd1
    rw [if_neg (by simp [hself])] at hok
    dsimp only at hok
    split at hok
    · exact absurd hok (by simp)
    · rename_i r hr
      cases hok
      refine ⟨?_, by rw [hself]; rfl⟩
      have := getCandidatesFromData_isSkippedAll scanner streams.length _ _ _ hr
      simpa [setSkipped] using this

theorem findCandidateSV_selfEdge_skipped_app :
    c5Res.svData.isSkippedAll = true ∧
    c5Res.trace = [.scanEv 0 0, .assignEv, .consolidateEv] :=
  findCandidateSV_selfEdge_skipped c5Scanner c5Streams c5Set c5Edge c5Res
    rfl (by decide) rfl

/-! ### The candidate scan: first intersecting candidate wins -/

theorem scanMerge_noMatch {R : Type} (obs : SVObservation) (sp : Bool)
    (p : SVCandidateSetReadPair R) :
    ∀ (l : List SVCandidate) (i : Nat),
      (∀ k, k < l.length → (l.getD k default).isIntersect obs.cand = false) →
      scanMerge obs sp p i l = (p, l, false)
  | [], i, _ => rfl
  | sv :: rest, i, h => by
    have h0 : sv.isIntersect obs.cand = false := by simpa using h 0 (by simp)
    have hrec := scanMerge_noMatch obs sp p rest (i + 1)
      (fun k hk => by simpa using h (k + 1) (by simpa using Nat.succ_lt_succ hk))
    simp only [scanMerge, h0, Bool.false_eq_true, if_false, hrec]

theorem scanMerge_firstMatch {R : Type} (obs : SVObservation) (sp : Bool)
    (p : SVCandidateSetReadPair R) :
    ∀ (l : List SVCandidate) (i j : Nat),
      j < l.length →
      (∀ k, k < j → (l.getD k default).isIntersect obs.cand = false) →
      (l.getD j default).isIntersect obs.cand = true →
      scanMerge obs sp p i l =
        ({ p with svLink := p.svLink ++ (if sp then [⟨i + j, obs.evtype⟩] else []) },
         l.set j ((l.getD j default).merge obs.cand), true)
  | [], i, j, hj, _, _ => absurd hj (by simp)
  | sv :: rest, i, 0, hj, hlt, hj0 => by
    simp only [List.getD_cons_zero] at hj0
    simp only [scanMerge, hj0, if_true, List.set, Nat.add_zero]
    simp [List.getD_cons_zero]
  | sv :: rest, i, j + 1, hj, hlt, hjv => by
    have h0 : sv.isIntersect obs.cand = false := by simpa using hlt 0 (Nat.succ_pos j)
    have hrec := scanMerge_firstMatch obs sp p rest (i + 1) j
      (by simpa using Nat.lt_of_succ_lt_succ hj)
      (fun k hk => by simpa using hlt (k + 1) (Nat.succ_lt_succ hk))
      (by simpa using hjv)
    simp only [scanMerge, h0, Bool.false_eq_true, if_false, hrec, List.getD_cons_succ,
      List.set_cons_succ]
    have : i + 1 + j = i + (j + 1) := by omega
    rw [this]

/-- C4: for an observation that is not excluded by the pair-type policy,
`assignObs` merges it into the first candidate (scanning in index order)
whose breakends intersect it, or — when no candidate intersects —
appends a new candidate seeded from the observation whose
`candidateIndex` is the pre-append list length; in either case a pair
association to the chosen index is recorded exactly when the observation
is spanning. -/
theorem assignObs_firstMatch {R : Type} (excl : Bool) (p : SVCandidateSetReadPair R)
    (svs : List SVCandidate) (obs : SVObservation)
    (h : ¬(excl = true ∧ obs.evtype.isPairType = true)) :
    ((∀ k, k < svs.length → (svs.getD k default).isIntersect obs.cand = false) →
      assignObs excl p svs obs =
        ({ p with svLink := p.svLink ++
            (if obs.isSpanning then [⟨svs.length, obs.evtype⟩] else []) },
         svs ++ [{ obs.cand with candidateIndex := svs.length }])) ∧
    (∀ j, j < svs.length →
      (∀ k, k < j → (svs.getD k default).isIntersect obs.cand = false) →
      (svs.getD j default).isIntersect obs.cand = true →
      assignObs excl p svs obs =
        ({ p with svLink := p.svLink ++
            (if obs.isSpanning then [⟨j, obs.evtype⟩] else []) },
         svs.set j ((svs.getD j default).merge obs.cand))) := by
  have hex : (excl && obs.evtype.isPairType) = false := by
    cases he : excl <;> cases ho : obs.evtype.isPairType <;> simp_all
  constructor
  · intro hnone
    rw [assignObs]
    rw [hex]
    simp only [Bool.false_eq_true, if_false]
    rw [scanMerge_noMatch obs obs.isSpanning p svs 0 hnone]
    simp
  · intro j hj hlt hjv
    rw [assignObs]
    rw [hex]
    simp only [Bool.false_eq_true, if_false]
    rw [scanMerge_firstMatch obs obs.isSpanning p svs 0 j hj hlt hjv]
    simp

/-! ### Pair-type exclusion -/

theorem assignObs_excluded {R : Type} (p : SVCandidateSetReadPair R) (svs : List SVCandidate)
    (c : SVObservation) (hp : c.evtype.isPairType = true) :
    assignObs true p svs c = (p, svs) := by
  rw [assignObs, hp]
  rfl

theorem assignObs_exclIrrelevant {R : Type} (p : SVCandidateSetReadPair R)
    (svs : List SVCandidate) (c : SVObservation) (hp : c.evtype.isPairType = false) :
    assignObs true p svs c = assignObs false p svs c := by
  rw [assignObs, assignObs, hp]
  rfl

theorem assignGo_excludeFilter {R : Type} :
    ∀ (cands : List SVObservation) (pair : SVCandidateSetReadPair R) (svs : List SVCandidate),
      assignGo true cands pair svs =
        assignGo false (cands.filter fun c => !c.evtype.isPairType) pair svs
  | [], _, _ => rfl
  | c :: cs, pair, svs => by
    by_cases hp : c.evtype.isPairType = true
    · rw [List.filter_cons_of_neg (by simp [hp])]
      rw [assignGo, assignObs_excluded pair svs c hp]
      exact assignGo_excludeFilter cs pair svs
    · have hp' : c.evtype.isPairType = false := by simpa using hp
      rw [List.filter_cons_of_pos (by simp [hp'])]
      rw [assignGo, assignGo, assignObs_exclIrrelevant pair svs c hp']
      exact assignGo_excludeFilter cs _ _

/-- C8: for a read pair whose remote side is absent (so the
exclude-unpaired policy makes pair-type exclusion active),
`getCandidatesFromData`'s per-pair processing assigns exactly the
non-pair-type observations, exactly as it would with exclusion off: no
pair-type observation is merged into or creates any candidate. -/
theorem processPair_pairTypeExclusion {R : Type} (scanner : SVLocusScanner R)
    (bamIndex : Nat) (pair : SVCandidateSetReadPair R) (svs : List SVCandidate) (r : R)
    (h1 : pair.read1 = some r) (h2 : pair.read2 = none) :
    processPair scanner bamIndex pair svs =
      .ok (assignPairObservationsToSVCandidates false
            ((scanner.getBreakendPair r none bamIndex).filter fun c => !c.evtype.isPairType)
            { pair with svLink := [] } svs) := by
  rw [processPair]
  simp only [h1, h2, Option.isSome_some, if_true, Option.isSome_none, Bool.not_false]
  rw [assignPairObservationsToSVCandidates, assignPairObservationsToSVCandidates]
  rw [show (isExcludeUnpaired && true) = true from rfl]
  rw [assignGo_excludeFilter]

/-! ### C4 / C8 witness fixtures -/

def c4Obs : SVObservation := ⟨.pair, true, ⟨⟨⟨0, 5, 9⟩, 0, 1⟩, ⟨⟨0, 20, 30⟩, 0, 1⟩, 0⟩⟩

def c4Pair : SVCandidateSetReadPair Nat := ⟨some 9, none, []⟩

theorem assignObs_firstMatch_app :
    assignObs false c4Pair [] c4Obs =
      ({ c4Pair with svLink := c4Pair.svLink ++
          (if c4Obs.isSpanning then [⟨(([] : List SVCandidate)).length, c4Obs.evtype⟩] else []) },
       ([] : List SVCandidate) ++ [{ c4Obs.cand with candidateIndex := ([] : List SVCandidate).length }]) :=
  (assignObs_firstMatch false c4Pair [] c4Obs (by decide)).1
    (fun k hk => absurd hk (Nat.not_lt_zero k))

def c8Obs2 : SVObservation := ⟨.cigar, false, ⟨⟨⟨0, 5, 9⟩, 0, 0⟩, ⟨⟨0, 20, 30⟩, 0, 0⟩, 0⟩⟩

def c8Scanner : SVLocusScanner Nat :=
  ⟨fun _ => false, fun _ _ => true, fun _ _ => false, fun _ => false,
   fun _ _ => [], fun _ _ _ => [c4Obs, c8Obs2]⟩

def c8Pair : SVCandidateSetReadPair Nat := ⟨some 5, none, [⟨3, .pair⟩]⟩

theorem processPair_pairTypeExclusion_app :
    processPair c8Scanner 0 c8Pair [] =
      .ok (assignPairObservationsToSVCandidates false
            ((c8Scanner.getBreakendPair 5 none 0).filter fun c => !c.evtype.isPairType)
            { c8Pair with svLink := [] } []) :=
  processPair_pairTypeExclusion c8Scanner 0 c8Pair [] 5 rfl rfl

/-! ### `addSVNodeRead` step lemmas -/

/-- The evidence-interest guard of `addSVNodeRead`, written out. -/
def isInterestingRead {R : Type} (scanner : SVLocusScanner R) (bamIndex : Nat) (r : R) : Bool :=
  (!scanner.isProperPair r bamIndex && scanner.isLargeFragment r bamIndex) ||
    (!(!scanner.isProperPair r bamIndex && scanner.isLargeFragment r bamIndex) &&
      scanner.isLocalAssemblyEvidence r)

theorem addSVNodeRead_reachesLoci {R : Type} (scanner : SVLocusScanner R)
    (ln rn : SVLocusNode) (r : R) (bamIndex : Nat) (ier : Bool)
    (g : SVCandidateSetReadPairSampleGroup R)
    (hf : scanner.isReadFiltered r = false)
    (hq : isInterestingRead scanner bamIndex r = true)
    (hcap : ¬maxDataSize ≤ g.size) :
    addSVNodeRead scanner ln rn r bamIndex ier g =
      match scanLoci ln rn (scanner.getSVLoci r bamIndex) with
      | .error e => .error e
      | .ok true => .ok (groupAdd g r ier)
      | .ok false => .ok g := by
  rw [addSVNodeRead, hf]
  simp only [Bool.false_eq_true, if_false]
  rw [isInterestingRead] at hq
  have hif : (if !(!scanner.isProperPair r bamIndex && scanner.isLargeFragment r bamIndex)
      then scanner.isLocalAssemblyEvidence r else false) =
      (!(!scanner.isProperPair r bamIndex && scanner.isLargeFragment r bamIndex) &&
        scanner.isLocalAssemblyEvidence r) := by
    cases (!scanner.isProperPair r bamIndex && scanner.isLargeFragment r bamIndex) <;> simp
  rw [hif, hq]
  simp only [Bool.not_true, Bool.false_eq_true, if_false]
  rw [if_neg hcap]

theorem addSVNodeRead_atCapacity {R : Type} (scanner : SVLocusScanner R)
    (ln rn : SVLocusNode) (r : R) (bamIndex : Nat) (ier : Bool)
    (g : SVCandidateSetReadPairSampleGroup R)
    (hf : scanner.isReadFiltered r = false)
    (hq : isInterestingRead scanner bamIndex r = true)
    (hcap : maxDataSize ≤ g.size) :
    addSVNodeRead scanner ln rn r bamIndex ier g = .ok (setIncomplete g) := by
  rw [addSVNodeRead, hf]
  simp only [Bool.false_eq_true, if_false]
  rw [isInterestingRead] at hq
  have hif : (if !(!scanner.isProperPair r bamIndex && scanner.isLargeFragment r bamIndex)
      then scanner.isLocalAssemblyEvidence r else false) =
      (!(!scanner.isProperPair r bamIndex && scanner.isLargeFragment r bamIndex) &&
        scanner.isLocalAssemblyEvidence r) := by
    cases (!scanner.isProperPair r bamIndex && scanner.isLargeFragment r bamIndex) <;> simp
  rw [hif, hq]
  simp only [Bool.not_true, Bool.false_eq_true, if_false]
  rw [if_pos hcap]

theorem isQualifyingAdd_spec {R : Type} (scanner : SVLocusScanner R) (ln rn : SVLocusNode)
    (bamIndex : Nat) (r : R) (h : isQualifyingAdd scanner ln rn bamIndex r = true) :
    scanner.isReadFiltered r = false ∧
    isInterestingRead scanner bamIndex r = true ∧
    scanLoci ln rn (scanner.getSVLoci r bamIndex) = .ok true := by
  rw [isQualifyingAdd] at h
  simp only [Bool.and_eq_true, Bool.not_eq_true'] at h
  obtain ⟨⟨h1, h2⟩, h3⟩ := h
  refine ⟨h1, by rw [isInterestingRead]; simpa using h2, ?_⟩
  rcases hsl : scanLoci ln rn (scanner.getSVLoci r bamIndex) with e | b
  · rw [hsl] at h3
    exact absurd h3 (by simp)
  · rw [hsl] at h3
    cases b
    · exact absurd h3 (by simp)
    · rfl

theorem addSVNodeRead_qualifying {R : Type} (scanner : SVLocusScanner R)
    (ln rn : SVLocusNode) (r : R) (bamIndex : Nat) (ier : Bool)
    (g : SVCandidateSetReadPairSampleGroup R)
    (hq : isQualifyingAdd scanner ln rn bamIndex r = true) :
    addSVNodeRead scanner ln rn r bamIndex ier g =
      if maxDataSize ≤ g.size then .ok (setIncomplete g) else .ok (groupAdd g r ier) := by
  obtain ⟨h1, h2, h3⟩ := isQualifyingAdd_spec scanner ln rn bamIndex r hq
  by_cases hcap : maxDataSize ≤ g.size
  · rw [if_pos hcap, addSVNodeRead_atCapacity scanner ln rn r bamIndex ier g h1 h2 hcap]
  · rw [if_neg hcap, addSVNodeRead_reachesLoci scanner ln rn r bamIndex ier g h1 h2 hcap, h3]

/-- C7: feeding any sequence of qualifying reads into an empty sample
group caps the group at `maxDataSize` (4000) pairs: the final size is
`min` of the feed length and 4000, no error is ever raised, and the
incomplete flag is set exactly when more than 4000 reads were fed. -/
theorem feedReads_qualifying {R : Type} (scanner : SVLocusScanner R) (ln rn : SVLocusNode)
    (bamIndex : Nat) (ier : Bool) :
    ∀ (rs : List R) (g : SVCandidateSetReadPairSampleGroup R),
      (∀ r ∈ rs, isQualifyingAdd scanner ln rn bamIndex r = true) →
      g.pairs.length ≤ maxDataSize →
      ∃ g', feedReads scanner ln rn bamIndex ier g rs = .ok g' ∧
        g'.pairs.length = min (g.pairs.length + rs.length) maxDataSize ∧
        g'.isIncomplete = (g.isIncomplete || decide (maxDataSize < g.pairs.length + rs.length))
  | [], g, _, hle => by
    refine ⟨g, rfl, ?_, ?_⟩
    · simp [Nat.min_eq_left hle]
    · have hnl : ¬maxDataSize < g.pairs.length + ([] : List R).length := by
        simpa using Nat.not_lt.mpr hle
      rw [decide_eq_false hnl, Bool.or_false]
  | r :: rs, g, h, hle => by
    have hqr := h r (List.mem_cons_self r rs)
    rw [feedReads, addSVNodeRead_qualifying scanner ln rn r bamIndex ier g hqr]
    by_cases hfull : maxDataSize ≤ g.size
    · rw [if_pos hfull]
      have hlen : g.pairs.length = maxDataSize := Nat.le_antisymm hle hfull
      obtain ⟨g', hg', hl, hi⟩ := feedReads_qualifying scanner ln rn bamIndex ier rs
        (setIncomplete g) (fun x hx => h x (List.mem_cons_of_mem r hx))
        (by simpa [setIncomplete] using hle)
      refine ⟨g', hg', ?_, ?_⟩
      · rw [hl]
        simp only [setIncomplete, hlen]
        omega
      · rw [hi]
        have htr : maxDataSize < g.pairs.length + (r :: rs).length := by
          simp only [List.length_cons]
          omega
        rw [decide_eq_true htr]
        simp [setIncomplete]
    · rw [if_neg hfull]
      obtain ⟨g', hg', hl, hi⟩ := feedReads_qualifying scanner ln rn bamIndex ier rs
        (groupAdd g r ier) (fun x hx => h x (List.mem_cons_of_mem r hx))
        (by
          simp only [groupAdd, List.length_append, List.length_cons, List.length_nil]
          have := Nat.lt_of_not_le hfull
          simp only [SVCandidateSetReadPairSampleGroup.size] at this
          omega)
      refine ⟨g', hg', ?_, ?_⟩
      · rw [hl]
        simp only [groupAdd, List.length_append, List.length_cons, List.length_nil]
        have heq : g.pairs.length + 0 + 1 + rs.length = g.pairs.length + (rs.length + 1) := by
          omega
        rw [heq]
      · rw [hi]
        simp only [groupAdd]
        have heq : g.pairs.length + 0 + 1 + rs.length = g.pairs.length + (rs.length + 1) := by
          omega
        simp only [List.length_append, List.length_cons, List.length_nil, heq]

def c7Node : SVLocusNode := ⟨⟨0, 0, 10⟩, ⟨0, 0, 10⟩⟩

def c7Scanner : SVLocusScanner Nat :=
  ⟨fun _ => false, fun _ _ => false, fun _ _ => true, fun _ => false,
   fun _ _ => [.one ⟨⟨0, 0, 10⟩, true⟩], fun _ _ _ => []⟩

theorem feedReads_qualifying_app :
    ∃ g', feedReads c7Scanner c7Node c7Node 0 false emptyGroup
        (List.replicate 4001 (0 : Nat)) = .ok g' ∧
      g'.pairs.length = 4000 ∧ g'.isIncomplete = true := by
  obtain ⟨g', hg', hl, hi⟩ := feedReads_qualifying c7Scanner c7Node c7Node 0 false
    (List.replicate 4001 0) emptyGroup
    (fun r hr => by rw [List.eq_of_mem_replicate hr]; rfl)
    (by simp [emptyGroup])
  refine ⟨g', hg', ?_, ?_⟩
  · rw [hl]
    simp only [emptyGroup, List.length_replicate, List.length_nil, maxDataSize]
    omega
  · rw [hi]
    simp only [emptyGroup, List.length_replicate, List.length_nil, maxDataSize]
    rfl

/-! ### Two-sided locus data-integrity fault -/

theorem scanLoci_append_skip (ln rn : SVLocusNode) :
    ∀ (pre rest : List ReadLocus), (∀ l ∈ pre, locusStep ln rn l = .skip) →
      scanLoci ln rn (pre ++ rest) = scanLoci ln rn rest
  | [], rest, _ => rfl
  | l :: pre, rest, h => by
    have h0 : locusStep ln rn l = .skip := h l (List.mem_cons_self l pre)
    rw [List.cons_append, scanLoci, h0]
    exact scanLoci_append_skip ln rn pre rest fun x hx => h x (List.mem_cons_of_mem l hx)

theorem locusStep_noOutCount (ln rn : SVLocusNode) (n0 n1 : ReadLocusNode)
    (h0 : n0.isOutCountB = false) (h1 : n1.isOutCountB = false) :
    locusStep ln rn (.two n0 n1) = .fault := by
  rw [locusStep]
  simp [h0, h1]

theorem locusStep_oneSided (ln rn : SVLocusNode) (nd : ReadLocusNode) :
    locusStep ln rn (.one nd) ≠ .fault := by
  rw [locusStep]
  split <;> simp

theorem scanLoci_oneSided (ln rn : SVLocusNode) :
    ∀ (loci : List ReadLocus), (∀ l ∈ loci, ∃ nd, l = .one nd) →
      ∃ b, scanLoci ln rn loci = .ok b
  | [], _ => ⟨false, rfl⟩
  | l :: ls, h => by
    obtain ⟨nd, rfl⟩ := h l (List.mem_cons_self l ls)
    rw [scanLoci]
    by_cases hI : nd.interval.isIntersect ln.interval = true
    · rw [locusStep, if_pos hI]
      exact ⟨true, rfl⟩
    · rw [locusStep, if_neg hI]
      exact scanLoci_oneSided ln rn ls fun x hx => h x (List.mem_cons_of_mem _ hx)

/-- C9 (amended): the data-integrity fault for a two-sided locus with no
out-count side is raised — and the read dropped — exactly when such a
locus is reached before any locus matches: if every earlier derived
locus was skipped, `addSVNodeRead` (for an unfiltered, interesting read
with the group below capacity) surfaces the exception; and a derivation
consisting only of one-sided loci can never trigger the fault. -/
theorem addSVNodeRead_twoSidedFault {R : Type} (scanner : SVLocusScanner R)
    (ln rn : SVLocusNode) (r : R) (bamIndex : Nat) (ier : Bool)
    (g : SVCandidateSetReadPairSampleGroup R)
    (pre rest : List ReadLocus) (n0 n1 : ReadLocusNode)
    (hf : scanner.isReadFiltered r = false)
    (hq : isInterestingRead scanner bamIndex r = true)
    (hcap : ¬maxDataSize ≤ g.size)
    (hloci : scanner.getSVLoci r bamIndex = pre ++ .two n0 n1 :: rest)
    (h0 : n0.isOutCountB = false) (h1 : n1.isOutCountB = false)
    (hpre : ∀ l ∈ pre, locusStep ln rn l = .skip) :
    addSVNodeRead scanner ln rn r bamIndex ier g =
      .error "Unexpected svlocus counts from bam record" ∧
    ∀ (loci : List ReadLocus), (∀ l ∈ loci, ∃ nd, l = .one nd) →
      ∃ b, scanLoci ln rn loci = .ok b := by
  refine ⟨?_, scanLoci_oneSided ln rn⟩
  rw [addSVNodeRead_reachesLoci scanner ln rn r bamIndex ier g hf hq hcap, hloci]
  rw [scanLoci_append_skip ln rn pre _ hpre]
  rw [scanLoci, locusStep_noOutCount ln rn n0 n1 h0 h1]

/-! ### C9 fixtures: a matching one-sided locus hides a later faulty
two-sided locus -/

def c9Good : ReadLocusNode := ⟨⟨0, 0, 10⟩, true⟩

def c9Bad : ReadLocusNode := ⟨⟨0, 0, 10⟩, false⟩

def c9Scanner : SVLocusScanner Nat :=
  ⟨fun _ => false, fun _ _ => false, fun _ _ => true, fun _ => false,
   fun _ _ => [.one c9Good, .two c9Bad c9Bad], fun _ _ _ => []⟩

def c9ScannerBadFirst : SVLocusScanner Nat :=
  ⟨fun _ => false, fun _ _ => false, fun _ _ => true, fun _ => false,
   fun _ _ => [.two c9Bad c9Bad], fun _ _ _ => []⟩

/-- C9 counterexample: the breakend derivation for this read yields a
two-sided locus in which neither side is flagged out-count, yet no
exception is raised and the read is recorded — because an earlier locus
already matched and the loop stopped before examining the faulty
locus. -/
theorem addSVNodeRead_faultUnreached :
    c9Scanner.getSVLoci 0 0 = [.one c9Good, .two c9Bad c9Bad] ∧
    c9Bad.isOutCountB = false ∧
    addSVNodeRead c9Scanner c7Node c7Node 0 0 false emptyGroup =
      .ok ⟨[⟨some 0, none, []⟩], false⟩ :=
  ⟨rfl, rfl, rfl⟩

/-! ### List and counting helper lemmas for the consolidation proofs -/

theorem getD_set_self {α : Type} : ∀ (l : List α) (i : Nat) (v d : α), i < l.length →
    (l.set i v).getD i d = v
  | [], i, _, _, h => absurd h (by simp)
  | a :: l, 0, v, d, _ => rfl
  | a :: l, i + 1, v, d, h =>
    getD_set_self l i v d (Nat.lt_of_succ_lt_succ (by simpa using h))

theorem getD_set_ne {α : Type} : ∀ (l : List α) (i j : Nat) (v d : α), i ≠ j →
    (l.set i v).getD j d = l.getD j d
  | [], _, _, _, _, _ => rfl
  | a :: l, 0, 0, v, d, h => absurd rfl h
  | a :: l, 0, j + 1, v, d, _ => rfl
  | a :: l, i + 1, 0, v, d, _ => rfl
  | a :: l, i + 1, j + 1, v, d, h =>
    getD_set_ne l i j v d (fun he => h (by rw [he]))

theorem getD_append_left {α : Type} : ∀ (l₁ l₂ : List α) (i : Nat) (d : α), i < l₁.length →
    (l₁ ++ l₂).getD i d = l₁.getD i d
  | [], _, i, _, h => absurd h (by simp)
  | a :: l₁, l₂, 0, d, _ => rfl
  | a :: l₁, l₂, i + 1, d, h =>
    getD_append_left l₁ l₂ i d (Nat.lt_of_succ_lt_succ (by simpa using h))

theorem getD_append_last {α : Type} : ∀ (l : List α) (x d : α),
    (l ++ [x]).getD l.length d = x
  | [], x, d => rfl
  | a :: l, x, d => getD_append_last l x d

theorem natMem_iff : ∀ (l : List Nat) (x : Nat), natMem l x = true ↔ x ∈ l
  | [], x => by simp [natMem]
  | d :: ds, x => by
    rw [natMem]
    by_cases h : x = d
    · simp [h]
    · simp only [if_neg h]
      rw [natMem_iff ds x]
      simp [h]

theorem mmLookup_mem : ∀ (m : List (Nat × Nat)) (k v : Nat),
    mmLookup m k = some v → (k, v) ∈ m
  | [], k, v, h => by simp [mmLookup] at h
  | (k', v') :: m, k, v, h => by
    rw [mmLookup] at h
    by_cases he : k = k'
    · rw [if_pos he] at h
      cases h
      simp [he]
    · rw [if_neg he] at h
      exact List.mem_cons_of_mem _ (mmLookup_mem m k v h)

theorem mmLookup_cons_exists (m : List (Nat × Nat)) (k w a : Nat)
    (h : ∃ v, mmLookup m a = some v) : ∃ v, mmLookup ((k, w) :: m) a = some v := by
  rw [mmLookup]
  by_cases he : a = k
  · exact ⟨w, by rw [if_pos he]⟩
  · obtain ⟨v, hv⟩ := h
    exact ⟨v, by rw [if_neg he]; exact hv⟩

theorem mmLookup_cons_ne (m : List (Nat × Nat)) (k w a : Nat) (h : a ≠ k) :
    mmLookup ((k, w) :: m) a = mmLookup m a := by
  rw [mmLookup, if_neg h]

theorem mmLookup_cons_self (m : List (Nat × Nat)) (k w : Nat) :
    mmLookup ((k, w) :: m) k = some w := by
  rw [mmLookup, if_pos rfl]

theorem countLE_append : ∀ (l₁ l₂ : List Nat) (i : Nat),
    countLE (l₁ ++ l₂) i = countLE l₁ i + countLE l₂ i
  | [], l₂, i => by simp [countLE]
  | d :: l₁, l₂, i => by
    rw [List.cons_append, countLE, countLE, countLE_append l₁ l₂ i]
    omega

theorem countLE_zero_of_forall_gt : ∀ (l : List Nat) (x : Nat), (∀ d ∈ l, x < d) →
    countLE l x = 0
  | [], _, _ => rfl
  | d :: ds, x, h => by
    rw [countLE, if_neg (by have := h d (List.mem_cons_self d ds); omega)]
    rw [countLE_zero_of_forall_gt ds x fun e he => h e (List.mem_cons_of_mem d he)]

theorem countLE_congr : ∀ (l : List Nat) (a b : Nat), a ≤ b →
    (∀ d ∈ l, d ≤ a ∨ b < d) → countLE l a = countLE l b
  | [], _, _, _, _ => rfl
  | d :: ds, a, b, hab, h => by
    rw [countLE, countLE,
      countLE_congr ds a b hab fun e he => h e (List.mem_cons_of_mem d he)]
    rcases h d (List.mem_cons_self d ds) with hd | hd
    · rw [if_pos hd, if_pos (Nat.le_trans hd hab)]
    · rw [if_neg (by omega), if_neg (by omega)]

theorem countLE_succ : ∀ (l : List Nat) (i : Nat), l.Pairwise (· < ·) →
    countLE l (i + 1) = countLE l i + (if (i + 1) ∈ l then 1 else 0)
  | [], i, _ => by simp [countLE]
  | d :: ds, i, hpw => by
    have hrec := countLE_succ ds i hpw.of_cons
    have hgt : ∀ x ∈ ds, d < x := (List.pairwise_cons.mp hpw).1
    have hmemiff : ((i + 1) ∈ d :: ds) ↔ (d = i + 1 ∨ (i + 1) ∈ ds) := by
      rw [List.mem_cons]
      constructor
      · rintro (h | h)
        · exact Or.inl h.symm
        · exact Or.inr h
      · rintro (h | h)
        · exact Or.inl h.symm
        · exact Or.inr h
    rw [countLE, countLE, hrec]
    by_cases hd : d = i + 1
    · have hnotin : (i + 1) ∉ ds := fun hm => by have := hgt _ hm; omega
      rw [if_pos (by omega : d ≤ i + 1), if_neg (by omega : ¬d ≤ i), if_neg hnotin,
        if_pos (hmemiff.mpr (Or.inl hd))]
      omega
    · by_cases hmem : (i + 1) ∈ ds
      · rw [if_pos hmem, if_pos (hmemiff.mpr (Or.inr hmem))]
        by_cases hle : d ≤ i
        · rw [if_pos hle, if_pos (by omega : d ≤ i + 1)]
          omega
        · rw [if_neg hle, if_neg (by omega : ¬d ≤ i + 1)]
          omega
      · rw [if_neg hmem, if_neg (show ¬(i + 1) ∈ d :: ds by simp [hmemiff, hd, hmem])]
        by_cases hle : d ≤ i
        · rw [if_pos hle, if_pos (by omega : d ≤ i + 1)]
          omega
        · rw [if_neg hle, if_neg (by omega : ¬d ≤ i + 1)]
          omega

theorem countLE_step : ∀ (l : List Nat), l.Pairwise (· < ·) → ∀ (a e : Nat), a < e → e ∈ l →
    (∀ d ∈ l, d ≤ a ∨ e ≤ d) → countLE l e = countLE l a + 1
  | [], _, a, e, _, he, _ => absurd he (List.not_mem_nil e)
  | d :: ds, hpw, a, e, hae, he, hsplit => by
    by_cases hd : d = e
    · subst hd
      have hgt : ∀ x ∈ ds, d < x := (List.pairwise_cons.mp hpw).1
      rw [countLE, countLE, if_pos (Nat.le_refl d), if_neg (by omega)]
      rw [countLE_zero_of_forall_gt ds d hgt,
        countLE_zero_of_forall_gt ds a fun x hx => by have := hgt x hx; omega]
    · have hin : e ∈ ds := by
        rcases List.mem_cons.mp he with h | h
        · exact absurd h.symm hd
        · exact h
      have hda : d ≤ a := by
        rcases hsplit d (List.mem_cons_self d ds) with h | h
        · exact h
        · have := (List.pairwise_cons.mp hpw).1 e hin
          omega
      rw [countLE, countLE, if_pos hda, if_pos (by omega : d ≤ e)]
      rw [countLE_step ds hpw.of_cons a e hae hin
        fun x hx => hsplit x (List.mem_cons_of_mem d hx)]
      omega

theorem pairwiseLT_length_le (l : List Nat) (hpw : l.Pairwise (· < ·)) (lo hi : Nat)
    (h : ∀ x ∈ l, lo ≤ x ∧ x < hi) : l.length ≤ hi - lo := by
  have hnd : l.Nodup := hpw.imp fun hab => Nat.ne_of_lt hab
  have hsub : l.toFinset ⊆ Finset.Ico lo hi := by
    intro x hx
    rw [List.mem_toFinset] at hx
    rw [Finset.mem_Ico]
    exact h x hx
  have hcard := Finset.card_le_card hsub
  rw [Nat.card_Ico] at hcard
  rwa [List.toFinset_card_of_nodup hnd] at hcard

theorem countLE_eq_filter : ∀ (l : List Nat) (a : Nat),
    countLE l a = (l.filter fun d => decide (d ≤ a)).length
  | [], _ => rfl
  | d :: ds, a => by
    rw [countLE, List.filter_cons, countLE_eq_filter ds a]
    by_cases hd : d ≤ a
    · rw [if_pos hd, if_pos (by simpa using hd)]
      simp only [List.length_cons]
      omega
    · rw [if_neg hd, if_neg (by simpa using hd)]
      simp

theorem countLE_add_countGT : ∀ (l : List Nat) (a : Nat),
    countLE l a + (l.filter fun d => decide (a < d)).length = l.length
  | [], _ => rfl
  | d :: ds, a => by
    rw [countLE, List.filter_cons]
    have hrec := countLE_add_countGT ds a
    by_cases hd : d ≤ a
    · rw [if_pos hd, if_neg (by simpa using Nat.not_lt.mpr hd)]
      simp only [List.length_cons]
      omega
    · rw [if_neg hd, if_pos (by simpa using Nat.lt_of_not_le hd)]
      simp only [List.length_cons]
      omega

theorem countLE_le_of_notMem (l : List Nat) (hpw : l.Pairwise (· < ·)) (a : Nat)
    (ha : a ∉ l) : countLE l a ≤ a := by
  rw [countLE_eq_filter]
  refine pairwiseLT_length_le _ (hpw.filter _) 0 a fun x hx => ?_
  rw [List.mem_filter] at hx
  obtain ⟨hxl, hxa⟩ := hx
  have hne : x ≠ a := fun he => ha (he ▸ hxl)
  have : x ≤ a := by simpa using hxa
  exact ⟨Nat.zero_le x, by omega⟩

/-- The central counting fact: a surviving (non-deleted) index, shifted
down by the deletions at or below it, lands strictly inside the
compacted list. -/
theorem countLE_slot (D : List Nat) (hpw : D.Pairwise (· < ·)) (n a : Nat)
    (hub : ∀ d ∈ D, d < n) (ha : a < n) (hnd : a ∉ D) :
    a - countLE D a < n - D.length := by
  have hLE : countLE D a ≤ a := countLE_le_of_notMem D hpw a hnd
  have hsum : countLE D a + (D.filter fun d => decide (a < d)).length = D.length :=
    countLE_add_countGT D a
  have hGT : (D.filter fun d => decide (a < d)).length ≤ n - (a + 1) := by
    refine pairwiseLT_length_le _ (hpw.filter _) (a + 1) n fun x hx => ?_
    rw [List.mem_filter] at hx
    obtain ⟨hxl, hxa⟩ := hx
    have h1 : a < x := by simpa using hxa
    exact ⟨h1, hub x hxl⟩
  omega

theorem addSVNodeRead_twoSidedFault_app :
    addSVNodeRead c9ScannerBadFirst c7Node c7Node 0 0 false emptyGroup =
      .error "Unexpected svlocus counts from bam record" :=
  (addSVNodeRead_twoSidedFault c9ScannerBadFirst c7Node c7Node 0 0 false emptyGroup
    [] [] c9Bad c9Bad rfl rfl (by decide) rfl rfl rfl
    (fun l hl => absurd hl (List.not_mem_nil l))).1

/-! ### The invariant of the first consolidation pass -/

/-- Specification of a move-map relative to the deleted-index set `D`
and the candidate count `n`: every binding sends its key to a surviving
index shifted down by the number of deletions at or below it. -/
def MMGood (D : List Nat) (n : Nat) (mm : List (Nat × Nat)) : Prop :=
  ∀ k v, (k, v) ∈ mm →
    (k ∈ D ∧ ∃ inner, inner < n ∧ inner ∉ D ∧ v = inner - countLE D inner) ∨
    (k ∉ D ∧ k < n ∧ v = k - countLE D k)

/-- Invariant of `consolidateOverlap`'s first pass, holding before the
outer iteration at index `bound`. -/
structure P1Inv (svs0 : List SVCandidate) (bound : Nat) (st : P1State) : Prop where
  lenEq : st.svs.length = svs0.length
  idxPres : ∀ i, (st.svs.getD i default).candidateIndex = (svs0.getD i default).candidateIndex
  delPW : st.deleted.Pairwise (· < ·)
  delLB : ∀ d ∈ st.deleted, 1 ≤ d
  delUB : ∀ d ∈ st.deleted, d < bound
  shiftLen : st.innerShift.length + 1 = bound
  shiftVal : ∀ i, i < st.innerShift.length → st.innerShift.getD i 0 = countLE st.deleted i
  mmSpec : ∀ k v, (k, v) ∈ st.moveMap →
    k ∈ st.deleted ∧ ∃ inner, inner < k ∧ inner ∉ st.deleted ∧
      v = inner - countLE st.deleted inner
  mmCover : ∀ d ∈ st.deleted, ∃ v, mmLookup st.moveMap d = some v

theorem innerScan_inv (svs0 : List SVCandidate) (o : Nat) (ho : 1 ≤ o)
    (hon : o < svs0.length) :
    ∀ (inners : List Nat) (st : P1State),
      (∀ i ∈ inners, i < o) →
      st.svs.length = svs0.length →
      (∀ i, (st.svs.getD i default).candidateIndex = (svs0.getD i default).candidateIndex) →
      st.deleted.Pairwise (· < ·) →
      (∀ d ∈ st.deleted, 1 ≤ d) →
      (∀ d ∈ st.deleted, d < o) →
      st.innerShift.length = o →
      (∀ i, i < st.innerShift.length → st.innerShift.getD i 0 = countLE st.deleted i) →
      (∀ k v, (k, v) ∈ st.moveMap → k ∈ st.deleted ∧ ∃ inner, inner < k ∧
        inner ∉ st.deleted ∧ v = inner - countLE st.deleted inner) →
      (∀ d ∈ st.deleted, ∃ v, mmLookup st.moveMap d = some v) →
      P1Inv svs0 (o + 1) (innerScan o st inners)
  | [], st, _, hlen, hidx, hpw, hlb, hub, hslen, hsval, hspec, hcover => by
    rw [innerScan]
    exact ⟨hlen, hidx, hpw, hlb, fun d hd => Nat.lt_succ_of_lt (hub d hd),
      by rw [hslen], hsval, hspec, hcover⟩
  | inner :: rest, st, hin, hlen, hidx, hpw, hlb, hub, hslen, hsval, hspec, hcover => by
    rw [innerScan]
    by_cases hdel : natMem st.deleted inner = true
    · rw [if_pos hdel]
      exact innerScan_inv svs0 o ho hon rest st
        (fun i hi => hin i (List.mem_cons_of_mem inner hi))
        hlen hidx hpw hlb hub hslen hsval hspec hcover
    · rw [if_neg hdel]
      by_cases hint : (st.svs.getD inner default).isIntersect (st.svs.getD o default) = true
      · rw [if_pos hint]
        have hio : inner < o := hin inner (List.mem_cons_self inner rest)
        have hnotmem : inner ∉ st.deleted := fun hm => hdel ((natMem_iff _ _).mpr hm)
        have hin2 : inner < svs0.length := Nat.lt_trans hio hon
        have hstab : ∀ a, a < o → countLE (st.deleted ++ [o]) a = countLE st.deleted a := by
          intro a ha
          rw [countLE_append, countLE, countLE, if_neg (by omega : ¬o ≤ a)]
          omega
        have hmem_app : ∀ x, x ∈ st.deleted ++ [o] ↔ x ∈ st.deleted ∨ x = o := by
          intro x
          rw [List.mem_append, List.mem_singleton]
        refine ⟨?_, ?_, ?_, ?_, ?_, ?_, ?_, ?_, ?_⟩
        · rw [List.length_set]
          exact hlen
        · intro i
          by_cases hieq : inner = i
          · subst hieq
            rw [getD_set_self _ _ _ _ (by rw [hlen]; exact hin2)]
            exact hidx inner
          · rw [getD_set_ne _ _ _ _ _ hieq]
            exact hidx i
        · exact List.pairwise_append.mpr ⟨hpw, List.pairwise_singleton _ _,
            fun a ha b hb => by rw [List.mem_singleton] at hb; subst hb; exact hub a ha⟩
        · intro d hd
          rcases (hmem_app d).mp hd with h | h
          · exact hlb d h
          · omega
        · intro d hd
          rcases (hmem_app d).mp hd with h | h
          · exact Nat.lt_succ_of_lt (hub d h)
          · omega
        · rw [hslen]
        · intro i hi
          rw [hstab i (by rw [hslen] at hi; exact hi)]
          exact hsval i hi
        · intro k v hkv
          rw [mmInsert] at hkv
          rcases List.mem_cons.mp hkv with h | h
          · rw [Prod.mk.injEq] at h
            obtain ⟨hk, hv⟩ := h
            refine ⟨(hmem_app k).mpr (Or.inr hk), inner, by omega, ?_, ?_⟩
            · intro hm
              rcases (hmem_app inner).mp hm with h' | h'
              · exact hnotmem h'
              · omega
            · rw [hv, hsval inner (by rw [hslen]; exact hio), hstab inner hio]
          · obtain ⟨hkD, inner0, hi0k, hi0n, hv0⟩ := hspec k v h
            have hko : k < o := hub k hkD
            refine ⟨(hmem_app k).mpr (Or.inl hkD), inner0, hi0k, ?_, ?_⟩
            · intro hm
              rcases (hmem_app inner0).mp hm with h' | h'
              · exact hi0n h'
              · omega
            · rw [hstab inner0 (by omega)]
              exact hv0
        · intro d hd
          rcases (hmem_app d).mp hd with h | h
          · rw [mmInsert, mmLookup_cons_ne _ _ _ _ (by have := hub d h; omega)]
            exact hcover d h
          · rw [mmInsert, h]
            exact ⟨_, mmLookup_cons_self _ _ _⟩
      · rw [if_neg hint]
        exact innerScan_inv svs0 o ho hon rest st
          (fun i hi => hin i (List.mem_cons_of_mem inner hi))
          hlen hidx hpw hlb hub hslen hsval hspec hcover

theorem outerStep_inv (svs0 : List SVCandidate) (o : Nat) (ho : 1 ≤ o)
    (hon : o < svs0.length) (st : P1State) (h : P1Inv svs0 o st) :
    P1Inv svs0 (o + 1) (outerStep st o) := by
  obtain ⟨hlen, hidx, hpw, hlb, hub, hslen, hsval, hspec, hcover⟩ := h
  subst hslen
  rw [outerStep]
  refine innerScan_inv svs0 _ ho hon _ _ (fun i hi => List.mem_range.mp hi)
    hlen hidx hpw hlb hub ?_ ?_ hspec hcover
  · rw [List.length_append, List.length_singleton]
  intro i hi
  rw [List.length_append, List.length_singleton] at hi
  by_cases hilt : i < st.innerShift.length
  · rw [getD_append_left _ _ _ _ hilt]
    exact hsval i hilt
  · have hieq : i = st.innerShift.length := by omega
    subst hieq
    rw [getD_append_last]
    dsimp only
    rcases hcase : st.innerShift.length with _ | m
    · rw [if_pos (by omega : (0 : Nat) + 1 ≤ 1)]
      have h00 : (0 : Nat) + 1 - 1 = 0 := rfl
      rw [h00]
      have hnm : natMem st.deleted 0 = false := by
        rcases hnm : natMem st.deleted 0 with _ | _
        · rfl
        · have := hlb 0 ((natMem_iff _ _).mp hnm)
          omega
      rw [hnm]
      rw [countLE_zero_of_forall_gt st.deleted 0 fun d hd => by have := hlb d hd; omega]
      simp
    · rw [if_neg (by omega : ¬m + 1 + 1 ≤ 1)]
      rw [show m + 1 + 1 - 2 = m from by omega]
      rw [show m + 1 + 1 - 1 = m + 1 from by omega]
      rw [hsval m (by omega)]
      rw [countLE_succ st.deleted m hpw]
      rcases hnm : natMem st.deleted (m + 1) with _ | _
      · have hmem : (m + 1) ∉ st.deleted := fun hm => by
          have h2 := (natMem_iff st.deleted (m + 1)).mpr hm
          rw [h2] at hnm
          simp at hnm
        rw [if_neg hmem]
        simp
      · have hmem : (m + 1) ∈ st.deleted := (natMem_iff _ _).mp hnm
        rw [if_pos hmem]
        simp

theorem phase1Go_inv (svs0 : List SVCandidate) :
    ∀ (k o : Nat) (st : P1State), 1 ≤ o → o + k ≤ svs0.length →
      P1Inv svs0 o st → P1Inv svs0 (o + k) (phase1Go st (List.range' o k))
  | 0, o, st, _, _, h => by
    rw [List.range']
    rw [phase1Go]
    simpa using h
  | k + 1, o, st, ho, hk, h => by
    rw [List.range'_succ, phase1Go]
    have h1 := outerStep_inv svs0 o ho (by omega) st h
    have h2 := phase1Go_inv svs0 k (o + 1) (outerStep st o) (by omega) (by omega) h1
    have he : o + 1 + k = o + (k + 1) := by omega
    rwa [he] at h2

theorem phase1_inv (svs : List SVCandidate) (h : 1 ≤ svs.length) :
    P1Inv svs svs.length (phase1 svs) := by
  have hinit : P1Inv svs 1 ⟨svs, [], [], []⟩ :=
    ⟨rfl, fun _ => rfl, List.Pairwise.nil, by simp, by simp, rfl, by simp,
     by simp, by simp⟩
  have h2 := phase1Go_inv svs (svs.length - 1) 1 ⟨svs, [], [], []⟩ (Nat.le_refl 1)
    (by omega) hinit
  rw [phase1]
  have he : 1 + (svs.length - 1) = svs.length := by omega
  rwa [he] at h2

/-! ### The invariant of the deleter pass -/

theorem shiftGo_fields : ∀ (is : List Nat) (s : DelState),
    (shiftGo s is).shift = s.shift ∧ (shiftGo s is).lastIndex = s.lastIndex ∧
    (shiftGo s is).isLastIndex = s.isLastIndex ∧ (shiftGo s is).svs.length = s.svs.length
  | [], s => ⟨rfl, rfl, rfl, rfl⟩
  | i :: is, s => by
    have h := shiftGo_fields is (shiftStep s i)
    rw [shiftGo]
    refine ⟨h.1, h.2.1, h.2.2.1, ?_⟩
    rw [h.2.2.2, shiftStep]
    dsimp only
    rw [List.length_set]

theorem shiftGo_mm (D : List Nat) (n : Nat) : ∀ (is : List Nat) (s : DelState),
    (∀ i ∈ is, i ∉ D ∧ i < n ∧ s.shift = countLE D i) →
    MMGood D n s.moveMap →
    MMGood D n (shiftGo s is).moveMap ∧
    (∀ a, (∃ v, mmLookup s.moveMap a = some v) →
      ∃ v, mmLookup (shiftGo s is).moveMap a = some v) ∧
    (∀ i ∈ is, ∃ v, mmLookup (shiftGo s is).moveMap i = some v)
  | [], s, _, hg => ⟨hg, fun _ ha => ha, by simp⟩
  | i :: is, s, hall, hg => by
    obtain ⟨hiD, hin, hsh⟩ := hall i (List.mem_cons_self i is)
    have hg' : MMGood D n (shiftStep s i).moveMap := by
      intro k v hkv
      rw [shiftStep] at hkv
      dsimp only at hkv
      rw [mmInsert] at hkv
      rcases List.mem_cons.mp hkv with h | h
      · rw [Prod.mk.injEq] at h
        obtain ⟨hk, hv⟩ := h
        refine Or.inr ⟨hk ▸ hiD, hk ▸ hin, ?_⟩
        rw [hk, hv, hsh]
      · exact hg k v h
    have hrec := shiftGo_mm D n is (shiftStep s i)
      (fun j hj => by
        obtain ⟨h1, h2, h3⟩ := hall j (List.mem_cons_of_mem i hj)
        exact ⟨h1, h2, h3⟩)
      hg'
    rw [shiftGo]
    refine ⟨hrec.1, ?_, ?_⟩
    · intro a ha
      exact hrec.2.1 a (mmLookup_cons_exists _ _ _ _ ha)
    · intro j hj
      rcases List.mem_cons.mp hj with h | h
      · subst h
        exact hrec.2.1 j ⟨j - s.shift, mmLookup_cons_self _ _ _⟩
      · exact hrec.2.2 j h

/-- Invariant of the deleter while walking the deleted indices in
ascending order. -/
structure DelInv (D : List Nat) (n : Nat) (s : DelState) : Prop where
  isLast : s.isLastIndex = true
  lastMem : s.lastIndex ∈ D
  lastLt : s.lastIndex < n
  shiftEq : s.shift = countLE D s.lastIndex
  svsLen : s.svs.length = n
  good : MMGood D n s.moveMap
  delCover : ∀ d ∈ D, ∃ v, mmLookup s.moveMap d = some v
  upto : ∀ a, a < n → a ∉ D → a ≤ s.lastIndex →
    (∃ v, mmLookup s.moveMap a = some v) ∨ ∀ d ∈ D, a < d

theorem deleteIndex_mid (D : List Nat) (n : Nat) (hpw : D.Pairwise (· < ·))
    (hub : ∀ d ∈ D, d < n) (s : DelState) (e : Nat)
    (hinv : DelInv D n s) (heD : e ∈ D) (hlt : s.lastIndex < e)
    (hgap : ∀ d ∈ D, d ≤ s.lastIndex ∨ e ≤ d) :
    DelInv D n (deleteIndex s e) ∧ (deleteIndex s e).lastIndex = e := by
  have hperElem : ∀ i ∈ List.range' (s.lastIndex + 1) (e - (s.lastIndex + 1)),
      i ∉ D ∧ i < n ∧ s.shift = countLE D i := by
    intro i hi
    rw [List.mem_range'_1] at hi
    have hi1 : s.lastIndex + 1 ≤ i := hi.1
    have hi2 : i < e := by omega
    have hiD : i ∉ D := fun hm => by
      rcases hgap i hm with h | h <;> omega
    refine ⟨hiD, by have := hub e heD; omega, ?_⟩
    rw [hinv.shiftEq]
    exact countLE_congr D s.lastIndex i (by omega) fun d hd => by
      rcases hgap d hd with h | h
      · exact Or.inl h
      · exact Or.inr (by omega)
  obtain ⟨hgood, hpres, hnew⟩ := shiftGo_mm D n _ s hperElem hinv.good
  have hfields := shiftGo_fields (List.range' (s.lastIndex + 1) (e - (s.lastIndex + 1))) s
  rw [deleteIndex, if_pos hinv.isLast]
  refine ⟨⟨rfl, heD, hub e heD, ?_, hfields.2.2.2.trans hinv.svsLen, hgood, ?_, ?_⟩, rfl⟩
  · dsimp only
    rw [hfields.1, hinv.shiftEq]
    exact (countLE_step D hpw s.lastIndex e hlt heD hgap).symm
  · intro d hd
    exact hpres d (hinv.delCover d hd)
  · intro a ha haD hale
    dsimp only at hale
    by_cases hcase : a ≤ s.lastIndex
    · rcases hinv.upto a ha haD hcase with h | h
      · exact Or.inl (hpres a h)
      · exact Or.inr h
    · have halt : a < e := by
        rcases Nat.lt_or_ge a e with h | h
        · exact h
        · have : a = e := by omega
          exact absurd (this ▸ heD) haD
      refine Or.inl (hnew a ?_)
      rw [List.mem_range'_1]
      omega

theorem deleterGo_mid (D : List Nat) (n : Nat) (hpw : D.Pairwise (· < ·))
    (hub : ∀ d ∈ D, d < n) :
    ∀ (ds : List Nat) (s : DelState),
      DelInv D n s →
      (s.lastIndex :: ds).Pairwise (· < ·) →
      (∀ x ∈ ds, x ∈ D) →
      (∀ d ∈ D, d ≤ s.lastIndex ∨ d ∈ ds) →
      DelInv D n (deleterGo s ds) ∧ ∀ d ∈ D, d ≤ (deleterGo s ds).lastIndex
  | [], s, hinv, _, _, hcov => by
    rw [deleterGo]
    refine ⟨hinv, fun d hd => ?_⟩
    rcases hcov d hd with h | h
    · exact h
    · exact absurd h (List.not_mem_nil d)
  | e :: ds, s, hinv, hsort, hmem, hcov => by
    rw [deleterGo]
    have heD : e ∈ D := hmem e (List.mem_cons_self e ds)
    have hlt : s.lastIndex < e :=
      (List.pairwise_cons.mp hsort).1 e (List.mem_cons_self e ds)
    have hgap : ∀ d ∈ D, d ≤ s.lastIndex ∨ e ≤ d := fun d hd => by
      rcases hcov d hd with h | h
      · exact Or.inl h
      · rcases List.mem_cons.mp h with h' | h'
        · omega
        · have := (List.pairwise_cons.mp (List.pairwise_cons.mp hsort).2).1 d h'
          omega
    obtain ⟨hinv', hle⟩ := deleteIndex_mid D n hpw hub s e hinv heD hlt hgap
    refine deleterGo_mid D n hpw hub ds (deleteIndex s e) hinv' ?_ ?_ ?_
    · rw [hle]
      exact (List.pairwise_cons.mp hsort).2
    · exact fun x hx => hmem x (List.mem_cons_of_mem e hx)
    · intro d hd
      rw [hle]
      rcases hcov d hd with h | h
      · exact Or.inl (by omega)
      · rcases List.mem_cons.mp h with h' | h'
        · exact Or.inl (by omega)
        · exact Or.inr h'

theorem deleteIndex_final (D : List Nat) (n : Nat)
    (hub : ∀ d ∈ D, d < n) (s : DelState)
    (hinv : DelInv D n s) (hall : ∀ d ∈ D, d ≤ s.lastIndex) :
    (deleteIndex s n).svs.length = n ∧ MMGood D n (deleteIndex s n).moveMap ∧
    (∀ d ∈ D, ∃ v, mmLookup (deleteIndex s n).moveMap d = some v) ∧
    (∀ a, a < n → a ∉ D →
      (∃ v, mmLookup (deleteIndex s n).moveMap a = some v) ∨ ∀ d ∈ D, a < d) := by
  have hperElem : ∀ i ∈ List.range' (s.lastIndex + 1) (n - (s.lastIndex + 1)),
      i ∉ D ∧ i < n ∧ s.shift = countLE D i := by
    intro i hi
    rw [List.mem_range'_1] at hi
    have hlastlt := hinv.lastLt
    have hi1 : s.lastIndex + 1 ≤ i := hi.1
    have hi2 : i < n := by omega
    have hiD : i ∉ D := fun hm => by have := hall i hm; omega
    refine ⟨hiD, hi2, ?_⟩
    rw [hinv.shiftEq]
    exact countLE_congr D s.lastIndex i (by omega) fun d hd => Or.inl (hall d hd)
  obtain ⟨hgood, hpres, hnew⟩ := shiftGo_mm D n _ s hperElem hinv.good
  have hfields := shiftGo_fields (List.range' (s.lastIndex + 1) (n - (s.lastIndex + 1))) s
  rw [deleteIndex, if_pos hinv.isLast]
  refine ⟨hfields.2.2.2.trans hinv.svsLen, hgood, ?_, ?_⟩
  · intro d hd
    exact hpres d (hinv.delCover d hd)
  · intro a ha haD
    by_cases hcase : a ≤ s.lastIndex
    · rcases hinv.upto a ha haD hcase with h | h
      · exact Or.inl (hpres a h)
      · exact Or.inr h
    · refine Or.inl (hnew a ?_)
      rw [List.mem_range'_1]
      omega

theorem deleterGo_append : ∀ (xs ys : List Nat) (s : DelState),
    deleterGo s (xs ++ ys) = deleterGo (deleterGo s xs) ys
  | [], ys, s => by rw [List.nil_append, deleterGo]
  | x :: xs, ys, s => by
    rw [List.cons_append, deleterGo, deleterGo, deleterGo_append xs ys]

theorem runDeleter_spec (D : List Nat) (n : Nat) (svs1 : List SVCandidate)
    (mm1 : List (Nat × Nat)) (hpw : D.Pairwise (· < ·)) (hlb : ∀ d ∈ D, 1 ≤ d)
    (hub : ∀ d ∈ D, d < n) (hne : D ≠ []) (hlen : svs1.length = n)
    (hgood : MMGood D n mm1) (hdcover : ∀ d ∈ D, ∃ v, mmLookup mm1 d = some v) :
    (runDeleter svs1 mm1 D n).svs.length = n ∧
    MMGood D n (runDeleter svs1 mm1 D n).moveMap ∧
    (∀ d ∈ D, ∃ v, mmLookup (runDeleter svs1 mm1 D n).moveMap d = some v) ∧
    (∀ a, a < n → a ∉ D →
      (∃ v, mmLookup (runDeleter svs1 mm1 D n).moveMap a = some v) ∨
      ∀ d ∈ D, a < d) := by
  obtain ⟨d1, D', hD⟩ : ∃ d1 D', D = d1 :: D' := by
    rcases D with _ | ⟨d1, D'⟩
    · exact absurd rfl hne
    · exact ⟨d1, D', rfl⟩
  subst hD
  rw [runDeleter]
  rw [show (d1 :: D') ++ [n] = d1 :: (D' ++ [n]) from rfl]
  rw [deleterGo]
  have hinit : deleteIndex ⟨svs1, mm1, 0, false, 0⟩ d1 =
      ⟨svs1, mm1, 1, true, d1⟩ := by
    rw [deleteIndex]
    rfl
  rw [hinit, deleterGo_append]
  have hgt : ∀ x ∈ D', d1 < x := (List.pairwise_cons.mp hpw).1
  have hinv1 : DelInv (d1 :: D') n ⟨svs1, mm1, 1, true, d1⟩ := by
    refine ⟨rfl, List.mem_cons_self d1 D', hub d1 (List.mem_cons_self d1 D'), ?_,
      hlen, hgood, hdcover, ?_⟩
    · show 1 = countLE (d1 :: D') d1
      rw [countLE, if_pos (Nat.le_refl d1),
        countLE_zero_of_forall_gt D' d1 hgt]
    · intro a ha haD hale
      have hale' : a ≤ d1 := hale
      refine Or.inr fun d hd => ?_
      rcases List.mem_cons.mp hd with h | h
      · have : a ≠ d1 := fun he => haD (he ▸ List.mem_cons_self d1 D')
        omega
      · have := hgt d h
        omega
  obtain ⟨hinv2, hall⟩ := deleterGo_mid (d1 :: D') n hpw hub D'
    ⟨svs1, mm1, 1, true, d1⟩ hinv1 hpw
    (fun x hx => List.mem_cons_of_mem d1 hx)
    (fun d hd => by
      rcases List.mem_cons.mp hd with h | h
      · exact Or.inl (show d ≤ d1 by omega)
      · exact Or.inr h)
  rw [deleterGo, deleterGo]
  exact deleteIndex_final (d1 :: D') n hub _ hinv2 hall

/-! ### Final validity of the rewritten associations -/

theorem mmFinal_valid (D : List Nat) (n : Nat) (mm : List (Nat × Nat))
    (hpw : D.Pairwise (· < ·)) (hub : ∀ d ∈ D, d < n)
    (hgood : MMGood D n mm)
    (hdcover : ∀ d ∈ D, ∃ v, mmLookup mm d = some v)
    (hcover : ∀ a, a < n → a ∉ D →
      (∃ v, mmLookup mm a = some v) ∨ ∀ d ∈ D, a < d)
    (a : Nat) (ha : a < n) :
    (remapAssoc mm ⟨a, .pair⟩).index < n - D.length := by
  rw [remapAssoc]
  rcases hl : mmLookup mm a with _ | v
  · have haD : a ∉ D := fun hm => by
      obtain ⟨v, hv⟩ := hdcover a hm
      rw [hl] at hv
      cases hv
    rcases hcover a ha haD with h | h
    · obtain ⟨v, hv⟩ := h
      rw [hl] at hv
      cases hv
    · have h0 : countLE D a = 0 := countLE_zero_of_forall_gt D a h
      have := countLE_slot D hpw n a hub ha haD
      rw [h0] at this
      simpa using this
  · have hmem := mmLookup_mem mm a v hl
    rcases hgood a v hmem with ⟨_, inner, hin, hiD, hv⟩ | ⟨haD, han, hv⟩
    · dsimp only
      rw [hv]
      exact countLE_slot D hpw n inner hub hin hiD
    · dsimp only
      rw [hv]
      exact countLE_slot D hpw n a hub han haD

/-! ### Remaining structural lemmas -/

theorem reindexFrom_length : ∀ (k : Nat) (l : List SVCandidate),
    (reindexFrom k l).length = l.length
  | _, [] => rfl
  | k, c :: l => by
    rw [reindexFrom, List.length_cons, List.length_cons, reindexFrom_length (k + 1) l]

theorem reindexFrom_getD : ∀ (l : List SVCandidate) (k i : Nat), i < l.length →
    ((reindexFrom k l).getD i default).candidateIndex = k + i
  | [], _, i, h => absurd h (by simp)
  | c :: l, k, 0, _ => by
    rw [reindexFrom, List.getD_cons_zero]
    simp
  | c :: l, k, i + 1, h => by
    rw [reindexFrom, List.getD_cons_succ]
    rw [reindexFrom_getD l (k + 1) i (by simpa using Nat.lt_of_succ_lt_succ h)]
    omega

theorem indexStableB_iff (svs : List SVCandidate) :
    indexStableB svs = true ↔
      ∀ i, i < svs.length → (svs.getD i default).candidateIndex = i := by
  rw [indexStableB, List.all_eq_true]
  constructor
  · intro h i hi
    have := h i (List.mem_range.mpr hi)
    simpa using this
  · intro h i hi
    simpa using h i (List.mem_range.mp hi)

theorem dataAssocValidB_iff {R : Type} (bamCount : Nat) (d : SVCandidateSetData R) (n : Nat) :
    dataAssocValidB bamCount d n = true ↔
      ∀ i, i < bamCount → ∀ p ∈ (getDataGroup d i).pairs, ∀ sva ∈ p.svLink,
        sva.index < n := by
  rw [dataAssocValidB, List.all_eq_true]
  constructor
  · intro h i hi p hp sva hsva
    have h1 := h i (List.mem_range.mpr hi)
    rw [List.all_eq_true] at h1
    have h2 := h1 p hp
    rw [List.all_eq_true] at h2
    simpa using h2 sva hsva
  · intro h i hi
    rw [List.all_eq_true]
    intro p hp
    rw [List.all_eq_true]
    intro sva hsva
    simpa using h i (List.mem_range.mp hi) p hp sva hsva

theorem getD_map_range {α : Type} (f : Nat → α) (d : α) :
    ∀ (k i : Nat), i < k → (((List.range k).map f).getD i d) = f i := by
  intro k
  induction k with
  | zero => intro i hi; omega
  | succ m ih =>
    intro i hi
    rw [List.range_succ, List.map_append]
    by_cases him : i < m
    · rw [getD_append_left _ _ _ _ (by simpa using him)]
      exact ih i him
    · have hieq : i = m := by omega
      subst hieq
      have hlen : ((List.range i).map f).length = i := by simp
      rw [show (List.map f [i]) = [f i] from rfl]
      calc ((List.range i).map f ++ [f i]).getD i d
          = ((List.range i).map f ++ [f i]).getD ((List.range i).map f).length d := by
            rw [hlen]
        _ = f i := getD_append_last _ _ _

theorem getDataGroup_remapData {R : Type} (bamCount : Nat) (mm : List (Nat × Nat))
    (d : SVCandidateSetData R) (i : Nat) (hi : i < bamCount) :
    getDataGroup (remapData bamCount mm d) i = remapGroup mm (getDataGroup d i) := by
  rw [remapData]
  show (((List.range bamCount).map fun j => remapGroup mm (getDataGroup d j)).getD i emptyGroup) = _
  rw [getD_map_range _ _ bamCount i hi]

theorem consolidateOverlap_snd {R : Type} (bamCount : Nat) (d : SVCandidateSetData R)
    (svs : List SVCandidate) :
    (consolidateOverlap bamCount d svs).2 =
      if (phase1 svs).deleted.isEmpty then (phase1 svs).svs
      else reindexFrom 0 ((runDeleter (phase1 svs).svs (phase1 svs).moveMap
        (phase1 svs).deleted svs.length).svs.take
          ((phase1 svs).svs.length - (phase1 svs).deleted.length)) := by
  unfold consolidateOverlap
  dsimp only
  split <;> rfl

theorem consolidateOverlap_fst_empty {R : Type} (bamCount : Nat) (d : SVCandidateSetData R)
    (svs : List SVCandidate) (hdel : (phase1 svs).deleted = [])
    (hmm : (phase1 svs).moveMap = []) :
    (consolidateOverlap bamCount d svs).1 = d := by
  unfold consolidateOverlap
  dsimp only
  rw [hdel, hmm]
  rfl

theorem consolidateOverlap_fst_nonempty {R : Type} (bamCount : Nat)
    (d : SVCandidateSetData R) (svs : List SVCandidate)
    (hdel : ¬(phase1 svs).deleted.isEmpty = true)
    (hmm : ¬(runDeleter (phase1 svs).svs (phase1 svs).moveMap (phase1 svs).deleted
      svs.length).moveMap.isEmpty = true) :
    (consolidateOverlap bamCount d svs).1 =
      remapData bamCount (runDeleter (phase1 svs).svs (phase1 svs).moveMap
        (phase1 svs).deleted svs.length).moveMap d := by
  unfold consolidateOverlap
  dsimp only
  rw [if_neg hdel]
  rw [if_neg hmm]

/-! ### Claim theorems: consolidation invariants -/

/-- C1: `consolidateOverlap` maintains index stability: if every input
candidate's stored `candidateIndex` equals its position, the same holds
for every candidate of the produced list (re-asserted after any
deletion and renumbering). -/
theorem consolidateOverlap_indexStable {R : Type} (bamCount : Nat)
    (svData : SVCandidateSetData R) (svs : List SVCandidate)
    (h : indexStableB svs = true) :
    indexStableB (consolidateOverlap bamCount svData svs).2 = true := by
  by_cases hn : svs.length = 0
  · have hsvs : svs = [] := List.length_eq_zero.mp hn
    subst hsvs
    rfl
  · have h1 : 1 ≤ svs.length := by omega
    have hp := phase1_inv svs h1
    rw [consolidateOverlap_snd]
    by_cases hdel : (phase1 svs).deleted.isEmpty = true
    · rw [if_pos hdel]
      rw [indexStableB_iff] at h ⊢
      intro i hi
      rw [hp.lenEq] at hi
      rw [hp.idxPres i]
      exact h i hi
    · rw [if_neg hdel]
      rw [indexStableB_iff]
      intro i hi
      rw [reindexFrom_length] at hi
      rw [reindexFrom_getD _ 0 i hi]
      omega

theorem consolidateOverlap_indexStable_app :
    indexStableB (consolidateOverlap 2 c3Data c3Svs).2 = true :=
  consolidateOverlap_indexStable 2 c3Data c3Svs (by decide)

/-- C2: `consolidateOverlap` keeps every pair association valid: if
every association of every sample's evidence group referenced a
candidate index below the input list's length, then after consolidation
(move-mapped associations redirected to their merge target's compacted
position, untouched associations still in place) every association
references an index strictly below the compacted list's length. -/
theorem consolidateOverlap_assocValid {R : Type} (bamCount : Nat)
    (svData : SVCandidateSetData R) (svs : List SVCandidate)
    (h : dataAssocValidB bamCount svData svs.length = true) :
    dataAssocValidB bamCount (consolidateOverlap bamCount svData svs).1
      (consolidateOverlap bamCount svData svs).2.length = true := by
  by_cases hn : svs.length = 0
  · have hsvs : svs = [] := List.length_eq_zero.mp hn
    subst hsvs
    exact h
  · have h1 : 1 ≤ svs.length := by omega
    have hp := phase1_inv svs h1
    by_cases hdel : (phase1 svs).deleted.isEmpty = true
    · have hdelnil : (phase1 svs).deleted = [] := by
        rcases hd : (phase1 svs).deleted with _ | ⟨x, xs⟩
        · rfl
        · rw [hd] at hdel
          simp [List.isEmpty] at hdel
      have hmmnil : (phase1 svs).moveMap = [] := by
        rcases hmmc : (phase1 svs).moveMap with _ | ⟨⟨k, v⟩, rest⟩
        · rfl
        · have := hp.mmSpec k v (by rw [hmmc]; exact List.mem_cons_self _ _)
          rw [hdelnil] at this
          exact absurd this.1 (List.not_mem_nil k)
      rw [consolidateOverlap_fst_empty bamCount svData svs hdelnil hmmnil]
      rw [consolidateOverlap_snd, if_pos hdel, hp.lenEq]
      exact h
    · -- the deletion case
      have hDub : ∀ d ∈ (phase1 svs).deleted, d < svs.length := fun d hd => hp.delUB d hd
      have hDne : (phase1 svs).deleted ≠ [] := by
        intro hx
        rw [hx] at hdel
        exact hdel rfl
      have hgood1 : MMGood (phase1 svs).deleted svs.length (phase1 svs).moveMap := by
        intro k v hkv
        obtain ⟨hkD, inner, hik, hiD, hv⟩ := hp.mmSpec k v hkv
        exact Or.inl ⟨hkD, inner, by have := hDub k hkD; omega, hiD, hv⟩
      obtain ⟨hrdLen, hrdGood, hrdCover, hrdUpto⟩ := runDeleter_spec
        (phase1 svs).deleted svs.length (phase1 svs).svs (phase1 svs).moveMap
        hp.delPW hp.delLB hDub hDne hp.lenEq hgood1 hp.mmCover
      have hmmne : ¬(runDeleter (phase1 svs).svs (phase1 svs).moveMap
          (phase1 svs).deleted svs.length).moveMap.isEmpty = true := by
        intro hx
        obtain ⟨d1, D', hD⟩ : ∃ d1 D', (phase1 svs).deleted = d1 :: D' := by
          rcases hdd : (phase1 svs).deleted with _ | ⟨d1, D'⟩
          · exact absurd hdd hDne
          · exact ⟨d1, D', rfl⟩
        obtain ⟨v, hv⟩ := hrdCover d1 (by rw [hD]; exact List.mem_cons_self d1 D')
        rcases hmc : (runDeleter (phase1 svs).svs (phase1 svs).moveMap
            (phase1 svs).deleted svs.length).moveMap with _ | _
        · rw [hmc] at hv
          cases hv
        · rw [hmc] at hx
          simp [List.isEmpty] at hx
      rw [consolidateOverlap_fst_nonempty bamCount svData svs hdel hmmne]
      have hlen2 : (consolidateOverlap bamCount svData svs).2.length =
          svs.length - (phase1 svs).deleted.length := by
        rw [consolidateOverlap_snd, if_neg hdel, reindexFrom_length, List.length_take,
          hrdLen, hp.lenEq]
        omega
      rw [hlen2]
      rw [dataAssocValidB_iff] at h ⊢
      intro i hi p hpmem sva hsva
      rw [getDataGroup_remapData bamCount _ svData i hi] at hpmem
      rw [remapGroup] at hpmem
      dsimp only at hpmem
      rw [List.mem_map] at hpmem
      obtain ⟨p0, hp0, rfl⟩ := hpmem
      rw [remapPair] at hsva
      dsimp only at hsva
      rw [List.mem_map] at hsva
      obtain ⟨sva0, hsva0, rfl⟩ := hsva
      have hidx : sva0.index < svs.length := h i hi p0 hp0 sva0 hsva0
      have hval := mmFinal_valid (phase1 svs).deleted svs.length
        (runDeleter (phase1 svs).svs (phase1 svs).moveMap (phase1 svs).deleted
          svs.length).moveMap
        hp.delPW hDub hrdGood hrdCover hrdUpto sva0.index hidx
      rw [remapAssoc] at hval ⊢
      rcases hl : mmLookup (runDeleter (phase1 svs).svs (phase1 svs).moveMap
          (phase1 svs).deleted svs.length).moveMap sva0.index with _ | v
      · rw [hl] at hval
        exact hval
      · rw [hl] at hval
        exact hval

theorem consolidateOverlap_assocValid_app :
    dataAssocValidB 2 (consolidateOverlap 2 c3Data c3Svs).1
      (consolidateOverlap 2 c3Data c3Svs).2.length = true :=
  consolidateOverlap_assocValid 2 c3Data c3Svs (by decide)

end MantaSV
